import Mathlib

/-!
Verification of the core logic of the `filesremote` SFTP client
(`src/main.cpp`): path normalization, directory-listing parsing, the
error-mapping of `GetDir`, the upload copy loop, the worker-thread
dispatch loop, the reconnect countdown, the file-watch tick, and the
directory sort comparator.

C++ `std::string` values are modelled as `List Char`; machine integers
that are only compared (sizes, timestamps) are modelled as `Nat`, and
C++ `int` variables that can go negative as `Int`.
-/

/-! ## String model -/

/-- Lexicographic byte-wise comparison, the model of `std::string operator<`
(`a < b` in C++).  Compares character by character. -/
def strLtb : List Char → List Char → Bool
  | [], [] => false
  | [], _ :: _ => true
  | _ :: _, [] => false
  | a :: as, b :: bs => if a < b then true else if b < a then false else strLtb as bs

/-- The model of repeatedly calling `std::getline(stream, segment, d)` on a
string-backed stream: splits on the delimiter; an empty input yields no
segments, and a trailing delimiter does not produce a trailing empty
segment (the final failing `getline` ends the loop). -/
def cppGetlineSplit (d : Char) : List Char → List (List Char)
  | [] => []
  | c :: cs =>
    if c = d then [] :: cppGetlineSplit d cs
    else
      match cppGetlineSplit d cs with
      | [] => [[c]]
      | s :: ss => (c :: s) :: ss

/-! ## `normalize_path` (src/main.cpp lines 113-149) -/

/-- `replace(path.begin(), path.end(), '\\', '/')`. -/
def replaceBackslash (l : List Char) : List Char :=
  l.map (fun c => if c = '\\' then '/' else c)

/-- The segment-collecting loop of `normalize_path`: empty and `"."`
segments are skipped, `".."` pops the last collected part (or is skipped
when there is none), anything else is appended. -/
def collectParts (parts : List (List Char)) : List (List Char) → List (List Char)
  | [] => parts
  | seg :: rest =>
    if seg = [] ∨ seg = ['.'] then collectParts parts rest
    else if seg = ['.', '.'] then collectParts parts.dropLast rest
    else collectParts (parts ++ [seg]) rest

/-- The joining loop tail of `normalize_path`: every part after the first is
preceded by `"/"`. -/
def joinRest : List (List Char) → List Char
  | [] => []
  | p :: ps => '/' :: p ++ joinRest ps

/-- Whether the first part looks like a Windows drive letter
(`parts[0].length() == 2 && parts[0][1] == ':'`). -/
def isDrivePart (p : List Char) : Bool :=
  match p with
  | [_, c] => c = ':'
  | _ => false

/-- The joining loop of `normalize_path`: the first part is preceded by `"/"`
unless it is a Windows drive letter part. -/
def joinParts : List (List Char) → List Char
  | [] => []
  | p0 :: rest => (if isDrivePart p0 then p0 else '/' :: p0) ++ joinRest rest

/-- `normalize_path` (src/main.cpp lines 113-149): replaces backslashes by
slashes, splits on `/`, resolves `"."` and `".."` segments, rejoins, and
returns `"/"` when nothing is left. -/
def normalize_path (path : List Char) : List Char :=
  let p := replaceBackslash path
  let parts := collectParts [] (cppGetlineSplit '/' p)
  let r := joinParts parts
  if r = [] then ['/'] else r

/-! ## Directory entries and long-listing line parsing
(class `DirEntry` and `SftpConnection::GetDir`, src/main.cpp lines 178-197
and 329-423) -/

/-- `DirEntry` (src/main.cpp lines 178-197). In C++ `mode_` and `isDir_`
have no default initializer; the constructed-but-unset values are modelled
as `0` and `false`. -/
structure DirEntry where
  name_ : List Char := []
  size_ : Nat := 0
  modified_ : Nat := 0
  mode_ : Nat := 0
  mode_str_ : List Char := []
  owner_ : List Char := []
  group_ : List Char := []
  isDir_ : Bool := false
deriving DecidableEq, Repr

/-- One raw entry as returned by `libssh2_sftp_readdir_ex`: the file name,
the attribute structure (each field present only when its flag bit is set)
and the free-text long-listing line. -/
structure RawDirEntry where
  name : List Char
  hasSize : Bool
  filesize : Nat
  hasMtime : Bool
  mtime : Nat
  hasPerm : Bool
  permissions : Nat
  line : List Char
deriving Repr

/-- `S_IFDIR` (octal 040000). -/
def S_IFDIR : Nat := 16384

/-- The attribute-copying part of the `GetDir` loop body
(src/main.cpp lines 367-383). -/
def mkDirEntry (r : RawDirEntry) : DirEntry :=
  { name_ := r.name
    size_ := if r.hasSize then r.filesize else 0
    modified_ := if r.hasMtime then r.mtime else 0
    mode_ := if r.hasPerm then r.permissions else 0
    isDir_ := if r.hasPerm then decide (Nat.land r.permissions S_IFDIR ≠ 0) else false }

/-- The free-text-line token loop of `GetDir` (src/main.cpp lines 385-412):
walks the space-separated segments, skipping empty ones; a first token
whose length is not 10 breaks out of the loop; token 0 becomes the
permission string, token 2 the owner, token 3 the group. -/
def parseLineLoop (d : DirEntry) (field_num : Nat) : List (List Char) → DirEntry
  | [] => d
  | seg :: rest =>
    if seg = [] then parseLineLoop d field_num rest
    else if field_num = 0 then
      if seg.length ≠ 10 then d
      else parseLineLoop { d with mode_str_ := seg } 1 rest
    else if field_num = 2 then parseLineLoop { d with owner_ := seg } (field_num + 1) rest
    else if field_num = 3 then parseLineLoop { d with group_ := seg } (field_num + 1) rest
    else parseLineLoop d (field_num + 1) rest

/-- Extraction of user, group and permission string from the free-text line
(src/main.cpp lines 385-412): the line is split on `' '`. -/
def parseLine (line : List Char) (d : DirEntry) : DirEntry :=
  parseLineLoop d 0 (cppGetlineSplit ' ' line)

/-- The entry accumulation of `GetDir` (src/main.cpp lines 348-422) on the
success path: entries named exactly `"."` are skipped, every other raw
entry is parsed and appended in the order the server returned it. -/
def getDirEntries : List RawDirEntry → List DirEntry
  | [] => []
  | r :: rest =>
    if r.name = ['.'] then getDirEntries rest
    else parseLine r.line (mkDirEntry r) :: getDirEntries rest

/-! ## Error taxonomy and the `GetDir` opendir error mapping
(src/main.cpp lines 200-256 and 332-346) -/

/-- The typed failures thrown by `SftpConnection`
(src/main.cpp lines 200-256). -/
inductive SftpFailure where
  | downloadFailed (remote_path : List Char)
  | downloadFailedPermission (remote_path : List Char)
  | uploadFailed (remote_path : List Char)
  | uploadFailedPermission (remote_path : List Char)
  | uploadFailedSpace (remote_path : List Char)
  | dirListFailedPermission (remote_path : List Char)
  | fileNotFound (remote_path : List Char)
  | connectionError (msg : List Char)
deriving DecidableEq, Repr

/-- `LIBSSH2_ERROR_SFTP_PROTOCOL` (libssh2 session error code). -/
def LIBSSH2_ERROR_SFTP_PROTOCOL : Int := -31

/-- `LIBSSH2_FX_PERMISSION_DENIED` (SFTP status code). -/
def LIBSSH2_FX_PERMISSION_DENIED : Nat := 3

/-- `LIBSSH2_FX_NO_SUCH_FILE` (SFTP status code). -/
def LIBSSH2_FX_NO_SUCH_FILE : Nat := 2

/-- `LIBSSH2_FX_NO_SUCH_PATH` (SFTP status code). -/
def LIBSSH2_FX_NO_SUCH_PATH : Nat := 10

/-- `LIBSSH2_FX_NO_MEDIA` (SFTP status code). -/
def LIBSSH2_FX_NO_MEDIA : Nat := 13

/-- The failure chosen by `GetDir` when `libssh2_sftp_opendir` returns no
handle (src/main.cpp lines 332-346), as a function of the session's last
error number, the SFTP subsystem's last error code, the requested path and
the session's last error message. -/
def getDirOpendirFailure (sessionErrno : Int) (sftpErr : Nat) (path msg : List Char) :
    SftpFailure :=
  if sessionErrno = LIBSSH2_ERROR_SFTP_PROTOCOL then
    if sftpErr = LIBSSH2_FX_PERMISSION_DENIED then
      SftpFailure.dirListFailedPermission path
    else if sftpErr = LIBSSH2_FX_NO_SUCH_PATH ∨ sftpErr = LIBSSH2_FX_NO_SUCH_FILE ∨
        sftpErr = LIBSSH2_FX_NO_MEDIA then
      SftpFailure.fileNotFound path
    else
      SftpFailure.connectionError ("libssh2_sftp_opendir failed. ".data ++ msg)
  else
    SftpFailure.connectionError ("libssh2_sftp_opendir failed. ".data ++ msg)

/-! ## `UploadFile` copy loop (src/main.cpp lines 467-522)

The remote side is modelled by an oracle list: entry `i` is the number of
bytes the server accepts on the `i`-th call to `libssh2_sftp_write`
(capped at the requested count); when the oracle is exhausted every write
is accepted in full.  Each write call appends the accepted prefix of the
buffer *pointer it was passed* to the remote file; the C++ code always
passes `buf`, the start of the chunk, and requests `rc` bytes where `rc`
is the previous call's return value (the advanced pointer `p` is computed
but never passed). -/

/-- `BUFLEN` (src/main.cpp line 78). -/
def BUFLEN : Nat := 4096

/-- Number of bytes the server accepts for one write call. -/
def writeAccept (oracle : List Nat) (count : Nat) : Nat :=
  min (oracle.headD count) count

/-- The inner retry loop of `UploadFile` (src/main.cpp lines 494-511):
`while (nread) { rc = libssh2_sftp_write(handle, buf, rc); p += rc;
nread -= rc; }`.  Returns the bytes that reach the remote file and the
remaining oracle, or `none` when the loop fails to terminate within the
fuel. -/
def uploadChunkLoop : Nat → List Nat → List Nat → Nat → Int → Option (List Nat × List Nat)
  | _, oracle, _, _, 0 => some ([], oracle)
  | 0, _, _, _, _ => none
  | fuel + 1, oracle, buf, rc, nread =>
    let w := writeAccept oracle rc
    match uploadChunkLoop fuel oracle.tail buf w (nread - (w : Int)) with
    | some (rest, oracle') => some (buf.take w ++ rest, oracle')
    | none => none

/-- The outer `fread` loop of `UploadFile` (src/main.cpp lines 490-516):
reads the local file in chunks of `BUFLEN` bytes and pushes each chunk
through the retry loop.  Returns the byte sequence written to the
(truncated) remote file. -/
def uploadFileLoop : Nat → List Nat → List Nat → Option (List Nat)
  | 0, _, _ => none
  | fuel + 1, oracle, localBytes =>
    let chunk := localBytes.take BUFLEN
    if chunk.length = 0 then some []
    else
      match uploadChunkLoop (fuel + 1) oracle chunk chunk.length (chunk.length : Int) with
      | none => none
      | some (written, oracle') =>
        match uploadFileLoop fuel oracle' (localBytes.drop BUFLEN) with
        | none => none
        | some rest => some (written ++ rest)

/-- `SftpConnection::UploadFile` (src/main.cpp lines 467-522), restricted to
its copy phase: the remote file content that results from uploading
`localBytes` against a server whose write acceptances are given by
`oracle`. -/
def UploadFile (fuel : Nat) (oracle : List Nat) (localBytes : List Nat) : Option (List Nat) :=
  uploadFileLoop fuel oracle localBytes

/-! ## Worker loop (`sftpThreadFunc`, src/main.cpp lines 690-783) -/

/-- The commands the controller sends to the worker thread
(`SftpThreadCmd*` structs, src/main.cpp lines 625-671). -/
inductive SftpCmd where
  | connect (username host : List Char) (port : Nat)
  | password (password : List Char)
  | shutdown
  | getDir (dir : List Char)
  | download (local_path remote_path : List Char)
  | upload (local_path remote_path : List Char)
deriving DecidableEq, Repr

/-- The responses the worker posts back to the controller, one per
`ID_SFTP_THREAD_RESPONSE_*` event id (src/main.cpp lines 83-96). -/
inductive SftpResponse where
  | connected (home_dir : List Char)
  | needPasswd
  | gotDir (dir : List Char) (dir_list : List DirEntry)
  | downloaded (local_path remote_path : List Char)
  | uploaded (remote_path : List Char)
  | downloadFailed (remote_path : List Char)
  | downloadFailedPermission (remote_path : List Char)
  | uploadFailed (remote_path : List Char)
  | uploadFailedPermission (remote_path : List Char)
  | uploadFailedSpace (remote_path : List Char)
  | dirListFailed (remote_path : List Char)
  | fileNotFound (remote_path : List Char)
  | errorConnection (msg : List Char)
  | error (msg : List Char)
deriving DecidableEq, Repr

/-- The transport operations of one live `SftpConnection`, as oracles: each
remote operation either succeeds with its result or raises a typed
failure. -/
structure SftpTransport where
  home_dir_ : List Char
  agentAuth : Except SftpFailure Bool
  passwordAuth : List Char → Except SftpFailure Bool
  getDir : List Char → Except SftpFailure (List DirEntry)
  downloadFile : List Char → List Char → Except SftpFailure Unit
  uploadFile : List Char → List Char → Except SftpFailure Unit

/-- The outcome of one iteration of the worker loop: the thread returns
(only on `Shutdown`), dereferences a null connection (the C++ code does
not guard the non-connect commands), or continues with a possibly updated
connection after posting the listed responses. -/
inductive WorkerStep where
  | terminated
  | crashed
  | continued (conn : Option SftpTransport) (responses : List SftpResponse)

/-- The catch chain at the bottom of `sftpThreadFunc` (src/main.cpp lines
754-777): converts each typed failure into its matching response. -/
def catchFailure : SftpFailure → SftpResponse
  | .downloadFailed rp => .downloadFailed rp
  | .downloadFailedPermission rp => .downloadFailedPermission rp
  | .uploadFailed rp => .uploadFailed rp
  | .uploadFailedPermission rp => .uploadFailedPermission rp
  | .uploadFailedSpace rp => .uploadFailedSpace rp
  | .dirListFailedPermission rp => .dirListFailed rp
  | .fileNotFound rp => .fileNotFound rp
  | .connectionError msg => .errorConnection msg

/-- One iteration of `sftpThreadFunc` (src/main.cpp lines 693-782): take a
command, dispatch it inside the try block, convert any typed failure via
the catch chain, and go back to waiting unless the command was
`Shutdown`.  `mkConn` models the `SftpConnection` constructor. -/
def sftpThreadStep (mkConn : List Char → List Char → Nat → Except SftpFailure SftpTransport)
    (conn : Option SftpTransport) : SftpCmd → WorkerStep
  | .shutdown => .terminated
  | .connect u h p =>
    match mkConn u h p with
    | .error f => .continued conn [catchFailure f]
    | .ok t =>
      match t.agentAuth with
      | .error f => .continued (some t) [catchFailure f]
      | .ok false => .continued (some t) [.needPasswd]
      | .ok true => .continued (some t) [.connected t.home_dir_]
  | .password pw =>
    match conn with
    | none => .crashed
    | some t =>
      match t.passwordAuth pw with
      | .error f => .continued (some t) [catchFailure f]
      | .ok false => .continued (some t) [.error ("Failed to authenticate.".data)]
      | .ok true => .continued (some t) [.connected t.home_dir_]
  | .getDir d =>
    match conn with
    | none => .crashed
    | some t =>
      match t.getDir d with
      | .error f => .continued (some t) [catchFailure f]
      | .ok entries => .continued (some t) [.gotDir d entries]
  | .download lp rp =>
    match conn with
    | none => .crashed
    | some t =>
      match t.downloadFile rp lp with
      | .error f => .continued (some t) [catchFailure f]
      | .ok _ => .continued (some t) [.downloaded lp rp]
  | .upload lp rp =>
    match conn with
    | none => .crashed
    | some t =>
      match t.uploadFile lp rp with
      | .error f => .continued (some t) [catchFailure f]
      | .ok _ => .continued (some t) [.uploaded rp]

/-! ## Controller: reconnect countdown (src/main.cpp lines 1356-1368 and
1585-1598) and file watcher (src/main.cpp lines 1617-1634) -/

/-- `prettifySentence` (src/main.cpp lines 1091-1099): upper-cases the first
character and appends a period when the string does not already end in
one. -/
def prettifySentence (s : List Char) : List Char :=
  let s1 := match s with
    | [] => []
    | c :: rest => c.toUpper :: rest
  if s1 ≠ [] ∧ s1.getLast? ≠ some '.' then s1 ++ ['.'] else s1

/-- `std::to_string` on the countdown value. -/
def intToStr (i : Int) : List Char := (toString i).data

/-- The controller-side state touched by the reconnect machinery of
`SftpguiFrame`. -/
structure FrameState where
  username_ : List Char
  host_ : List Char
  port_ : Nat
  status_text : List Char
  reconnect_timer_error_ : List Char
  reconnect_timer_countdown_ : Int
  reconnect_timer_running : Bool
  reconnect_timer_interval_ms : Nat
deriving Repr

/-- The `ID_SFTP_THREAD_RESPONSE_ERROR_CONNECTION` handler
(src/main.cpp lines 1586-1598): store the prettified error, show the
5-second message, set the countdown to `5 - 1` and start the 1000 ms
timer. -/
def onErrorConnection (s : FrameState) (rerror : List Char) : FrameState :=
  let error := prettifySentence rerror
  { s with
    reconnect_timer_error_ := error
    status_text := error ++ (" Reconnecting in 5 seconds...".data)
    reconnect_timer_countdown_ := 5 - 1
    reconnect_timer_running := true
    reconnect_timer_interval_ms := 1000 }

/-- The `reconnect_timer_` tick handler (src/main.cpp lines 1357-1368):
while the countdown is positive, update the status text with the current
value and decrement; once it reaches zero, stop the timer and re-issue
`Connect` with the frame's stored username, host and port. -/
def onReconnectTimer (s : FrameState) : FrameState × Option SftpCmd :=
  if s.reconnect_timer_countdown_ > 0 then
    ({ s with
        status_text := s.reconnect_timer_error_ ++ (" Reconnecting in ".data) ++
          intToStr s.reconnect_timer_countdown_ ++ (" seconds...".data)
        reconnect_timer_countdown_ := s.reconnect_timer_countdown_ - 1 },
      none)
  else
    ({ s with
        reconnect_timer_running := false
        status_text := s.reconnect_timer_error_ ++ (" Reconnecting...".data) },
      some (SftpCmd.connect s.username_ s.host_ s.port_))

/-- Runs `n` reconnect-timer ticks, collecting the commands they put on the
channel. -/
def runTicks : Nat → FrameState → FrameState × List SftpCmd
  | 0, s => (s, [])
  | n + 1, s =>
    let sc := onReconnectTimer s
    let rest := runTicks n sc.1
    (rest.1, sc.2.toList ++ rest.2)

/-- `OpenedFile` (src/main.cpp lines 1082-1087); the local modification
timestamp is modelled as a `Nat`. -/
structure OpenedFile where
  local_path : List Char
  remote_path : List Char
  modified : Nat
  upload_requested : Bool := false
deriving DecidableEq, Repr

/-- The per-file body of `OnFileWatcherTimer` (src/main.cpp lines
1627-1634) together with the effect of `UploadWatchedFile` (lines
1617-1625): when no upload is requested for the file and its on-disk
modification time is newer than the tracked one, an `Upload` command is
put on the channel and the file's `upload_requested` flag is set. -/
def watchTickFile (mtime : List Char → Nat) (f : OpenedFile) : OpenedFile × Option SftpCmd :=
  if f.upload_requested = false ∧ mtime f.local_path > f.modified then
    ({ f with upload_requested := true }, some (SftpCmd.upload f.local_path f.remote_path))
  else (f, none)

/-- One tick of `OnFileWatcherTimer` over the opened-file table (the
`std::map` is modelled as the list of its entries): returns the updated
table and the `Upload` commands issued during the tick. -/
def onFileWatcherTimer (mtime : List Char → Nat) (files : List OpenedFile) :
    List OpenedFile × List SftpCmd :=
  (files.map (fun f => (watchTickFile mtime f).1),
   files.filterMap (fun f => (watchTickFile mtime f).2))

/-! ## `SortAndPopulateDir` (src/main.cpp lines 1678-1726) -/

/-- The name-column fallthrough of the comparator lambda (src/main.cpp
lines 1713-1721): when both names are nonempty, a leading-dot name
compares before a non-dot name in either direction; otherwise the names
are compared lexicographically, `<` when descending and `>` when
ascending. -/
def cmpNameCol (sort_desc : Bool) (na nb : List Char) : Bool :=
  match na, nb with
  | a0 :: _, b0 :: _ =>
    if a0 = '.' ∧ b0 ≠ '.' then true
    else if a0 ≠ '.' ∧ b0 = '.' then false
    else if sort_desc then strLtb na nb else strLtb nb na
  | _, _ => if sort_desc then strLtb na nb else strLtb nb na

/-- The comparator lambda of `SortAndPopulateDir` (src/main.cpp lines
1679-1722): `".."` first, then directories before files, then the column
key in the configured direction; for the name column, dot-files come
before non-dot-files regardless of direction. -/
def dirEntryCmp (sort_column : Nat) (sort_desc : Bool) (a b : DirEntry) : Bool :=
  if a.name_ = ['.', '.'] then true
  else if b.name_ = ['.', '.'] then false
  else if a.isDir_ && !b.isDir_ then true
  else if !a.isDir_ && b.isDir_ then false
  else if sort_column = 1 then
    if sort_desc then decide (a.size_ < b.size_) else decide (b.size_ < a.size_)
  else if sort_column = 2 then
    if sort_desc then decide (a.modified_ < b.modified_) else decide (b.modified_ < a.modified_)
  else if sort_column = 3 then
    if sort_desc then strLtb a.mode_str_ b.mode_str_ else strLtb b.mode_str_ a.mode_str_
  else if sort_column = 4 then
    if sort_desc then strLtb a.owner_ b.owner_ else strLtb b.owner_ a.owner_
  else if sort_column = 5 then
    if sort_desc then strLtb a.group_ b.group_ else strLtb b.group_ a.group_
  else
    cmpNameCol sort_desc a.name_ b.name_

/-- Insertion into a run already arranged by the comparator: the new element
goes in front of the first element that does not compare before it. -/
def insertCmp (cmp : DirEntry → DirEntry → Bool) (x : DirEntry) : List DirEntry → List DirEntry
  | [] => [x]
  | y :: ys => if cmp y x then y :: insertCmp cmp x ys else x :: y :: ys

/-- Comparison sort with the given comparator, the model of the `std::sort`
call in `SortAndPopulateDir`. -/
def sortCmp (cmp : DirEntry → DirEntry → Bool) : List DirEntry → List DirEntry
  | [] => []
  | x :: xs => insertCmp cmp x (sortCmp cmp xs)

/-- The sorting performed by `SortAndPopulateDir` (src/main.cpp line 1723)
on the cached directory listing. -/
def SortAndPopulateDir (sort_column : Nat) (sort_desc : Bool) (l : List DirEntry) :
    List DirEntry :=
  sortCmp (dirEntryCmp sort_column sort_desc) l

/-! ## Spec-side definitions used for comparison with the code -/

/-- Splitting on a character predicate (the claim's notion of splitting a
line on whitespace). -/
def splitOnPred (p : Char → Bool) : List Char → List (List Char)
  | [] => [[]]
  | c :: cs =>
    if p c then [] :: splitOnPred p cs
    else
      match splitOnPred p cs with
      | [] => [[c]]
      | s :: ss => (c :: s) :: ss

/-- The tokens of a long-listing line as the spec describes them: split on
whitespace, empty tokens discarded. -/
def specWhitespaceTokens (line : List Char) : List (List Char) :=
  (splitOnPred (fun c => c.isWhitespace) line).filter (fun t => t ≠ [])

/-- The tokens the code actually works with: split on the space character
only, empty tokens discarded. -/
def spaceTokens (line : List Char) : List (List Char) :=
  (cppGetlineSplit ' ' line).filter (fun t => t ≠ [])

/-- Lexicographic combination of a numeric rank with a tie-breaking
relation: used to characterize the sort comparator. -/
def LexNat {α : Type} (f : α → Nat) (r : α → α → Prop) (a b : α) : Prop :=
  f a < f b ∨ (f a = f b ∧ r a b)

/-- Directory-before-file rank used by the comparator. -/
def dirRank (e : DirEntry) : Nat := if e.isDir_ then 0 else 1

/-- Rank of a name under the name column: dot-names sort before other
names in either direction, and the lexicographic fallback places the
empty name last for ascending comparison and first for descending. -/
def rank0 (sort_desc : Bool) (n : List Char) : Nat :=
  match n with
  | [] => if sort_desc then 0 else 2
  | c :: _ =>
    if c = '.' then (if sort_desc then 1 else 0) else (if sort_desc then 2 else 1)

/-- String comparison in the configured direction. -/
def strLtDir (sort_desc : Bool) (x y : List Char) : Prop :=
  if sort_desc then strLtb x y = true else strLtb y x = true

/-- The effective column key order of the comparator, for entries not named
`".."` and of equal directory rank. -/
def colLt (sort_column : Nat) (sort_desc : Bool) (a b : DirEntry) : Prop :=
  if sort_column = 1 then (if sort_desc then a.size_ < b.size_ else b.size_ < a.size_)
  else if sort_column = 2 then
    (if sort_desc then a.modified_ < b.modified_ else b.modified_ < a.modified_)
  else if sort_column = 3 then strLtDir sort_desc a.mode_str_ b.mode_str_
  else if sort_column = 4 then strLtDir sort_desc a.owner_ b.owner_
  else if sort_column = 5 then strLtDir sort_desc a.group_ b.group_
  else LexNat (fun e => rank0 sort_desc e.name_) (fun x y => strLtDir sort_desc x.name_ y.name_) a b

/-- The full key order of the comparator for entries not named `".."`:
directories first, then the column key. -/
def entryKeyLt (sort_column : Nat) (sort_desc : Bool) : DirEntry → DirEntry → Prop :=
  LexNat dirRank (colLt sort_column sort_desc)

/-! ## Concrete sample values used to exercise the theorems -/

/-- A plain file entry named `a`. -/
def entA : DirEntry := { name_ := ['a'] }

/-- A plain file entry named `b`. -/
def entB : DirEntry := { name_ := ['b'], size_ := 5 }

/-- A plain file entry named `c`. -/
def entC : DirEntry := { name_ := ['c'] }

/-- A parent-navigation entry named `..`. -/
def entDotDot : DirEntry := { name_ := ['.', '.'], isDir_ := true }

/-- A transport whose directory listing fails with a permission error. -/
def sampleFailTransport : SftpTransport where
  home_dir_ := ("/home/u".data)
  agentAuth := Except.ok true
  passwordAuth := fun _ => Except.ok true
  getDir := fun d => Except.error (SftpFailure.dirListFailedPermission d)
  downloadFile := fun _ _ => Except.ok ()
  uploadFile := fun _ _ => Except.ok ()

/-- A connection constructor that always yields `sampleFailTransport`. -/
def sampleMkConn : List Char → List Char → Nat → Except SftpFailure SftpTransport :=
  fun _ _ _ => Except.ok sampleFailTransport

/-- An opened file whose local copy has been modified on disk. -/
def sampleOpenedFile : OpenedFile :=
  { local_path := ("/tmp/f".data), remote_path := ("/r/f".data), modified := 1 }

/-- A frame state used to exercise the reconnect countdown. -/
def sampleFrame : FrameState where
  username_ := ("alice".data)
  host_ := ("h".data)
  port_ := 22
  status_text := []
  reconnect_timer_error_ := []
  reconnect_timer_countdown_ := 0
  reconnect_timer_running := false
  reconnect_timer_interval_ms := 0

/-- A raw listing entry with a conventional long-listing line. -/
def sampleRawEntry : RawDirEntry where
  name := ['f']
  hasSize := true
  filesize := 3
  hasMtime := true
  mtime := 1700000000
  hasPerm := true
  permissions := 33188
  line := ("-rw-r--r-- 1 root wheel 3 Jan 1 f".data)

/-- A raw listing entry whose free-text line is malformed (first token is
not 10 characters long). -/
def sampleRawEntryBad : RawDirEntry where
  name := ['g']
  hasSize := true
  filesize := 7
  hasMtime := false
  mtime := 0
  hasPerm := false
  permissions := 0
  line := ("total 12".data)

/-! # Theorems -/

/-! ## Order lemmas for the string comparison -/

theorem strLtb_irrefl (l : List Char) : strLtb l l = false := by
  induction l with
  | nil => rfl
  | cons c cs ih => simp [strLtb, lt_irrefl, ih]

theorem strLtb_nil_cons (c : Char) (cs : List Char) : strLtb [] (c :: cs) = true := rfl

theorem strLtb_nil_right (l : List Char) : strLtb l [] = false := by
  cases l <;> rfl

theorem strLtb_trans : ∀ {a b c : List Char},
    strLtb a b = true → strLtb b c = true → strLtb a c = true := by
  intro a
  induction a with
  | nil =>
    intro b c hab hbc
    cases b with
    | nil => simp [strLtb] at hab
    | cons b0 bs =>
      cases c with
      | nil => simp [strLtb_nil_right] at hbc
      | cons c0 cs => exact strLtb_nil_cons c0 cs
  | cons a0 as ih =>
    intro b c hab hbc
    cases b with
    | nil => simp [strLtb_nil_right] at hab
    | cons b0 bs =>
      cases c with
      | nil => simp [strLtb_nil_right] at hbc
      | cons c0 cs =>
        simp only [strLtb] at hab hbc ⊢
        by_cases h1 : a0 < b0
        · by_cases h2 : b0 < c0
          · simp [lt_trans h1 h2]
          · simp only [h2, if_false] at hbc
            by_cases h3 : c0 < b0
            · simp [h3] at hbc
            · have hbc0 : b0 = c0 := le_antisymm (not_lt.mp h3) (not_lt.mp h2)
              simp [hbc0 ▸ h1]
        · simp only [h1, if_false] at hab
          by_cases h1' : b0 < a0
          · simp [h1'] at hab
          · have hab0 : a0 = b0 := le_antisymm (not_lt.mp h1') (not_lt.mp h1)
            subst hab0
            rw [if_neg (lt_irrefl a0)] at hab
            by_cases h2 : a0 < c0
            · simp [h2]
            · simp only [h2, if_false] at hbc ⊢
              by_cases h3 : c0 < a0
              · simp [h3] at hbc
              · simp only [h3, if_false] at hbc ⊢
                exact ih hab hbc

theorem strLtb_trichotomy (a b : List Char) :
    strLtb a b = true ∨ a = b ∨ strLtb b a = true := by
  induction a generalizing b with
  | nil =>
    cases b with
    | nil => exact Or.inr (Or.inl rfl)
    | cons b0 bs => exact Or.inl (strLtb_nil_cons b0 bs)
  | cons a0 as ih =>
    cases b with
    | nil => exact Or.inr (Or.inr (strLtb_nil_cons a0 as))
    | cons b0 bs =>
      rcases lt_trichotomy a0 b0 with h | h | h
      · left; simp [strLtb, h]
      · subst h
        rcases ih bs with h' | h' | h'
        · left; simp [strLtb, lt_irrefl, h']
        · subst h'; right; left; rfl
        · right; right; simp [strLtb, lt_irrefl, h']
      · right; right; simp [strLtb, h]

theorem strLtb_asymm {a b : List Char} (h : strLtb a b = true) : strLtb b a = false := by
  by_contra hc
  have hba : strLtb b a = true := by
    cases hba : strLtb b a with
    | true => rfl
    | false => exact absurd hba hc
  have := strLtb_trans h hba
  rw [strLtb_irrefl] at this
  exact Bool.false_ne_true this

theorem strLtb_comparison {a b c : List Char} (h : strLtb a c = true) :
    strLtb a b = true ∨ strLtb b c = true := by
  rcases strLtb_trichotomy a b with h1 | h1 | h1
  · exact Or.inl h1
  · subst h1; exact Or.inr h
  · right
    rcases strLtb_trichotomy b c with h2 | h2 | h2
    · exact h2
    · subst h2; exact absurd (strLtb_asymm h) (by simp [h1])
    · have := strLtb_trans h2 h1
      have := strLtb_trans this h
      rw [strLtb_irrefl] at this
      exact absurd this Bool.false_ne_true

/-! ## Split lemmas (used for C10) -/

theorem cppGetlineSplit_cons_delim (d : Char) (l : List Char) :
    cppGetlineSplit d (d :: l) = [] :: cppGetlineSplit d l := by
  simp [cppGetlineSplit]

theorem mem_cppGetlineSplit_subset {d : Char} :
    ∀ {l seg : List Char}, seg ∈ cppGetlineSplit d l → ∀ c ∈ seg, c ∈ l := by
  intro l
  induction l with
  | nil => intro seg hseg _ _; simp [cppGetlineSplit] at hseg
  | cons x xs ih =>
    intro seg hseg c hc
    simp only [cppGetlineSplit] at hseg
    by_cases hx : x = d
    · rw [if_pos hx] at hseg
      rcases List.mem_cons.mp hseg with h | h
      · subst h; simp at hc
      · exact List.mem_cons_of_mem x (ih h c hc)
    · rw [if_neg hx] at hseg
      rcases hrec : cppGetlineSplit d xs with _ | ⟨s, ss⟩
      · rw [hrec] at hseg
        simp at hseg
        subst hseg
        simp at hc
        simp [hc]
      · rw [hrec] at hseg
        rcases List.mem_cons.mp hseg with h | h
        · subst h
          rcases List.mem_cons.mp hc with h' | h'
          · rw [h']; exact List.mem_cons_self x xs
          · have hs : s ∈ cppGetlineSplit d xs := by
              rw [hrec]; exact List.mem_cons_self s ss
            exact List.mem_cons_of_mem x (ih hs c h')
        · have hs : seg ∈ cppGetlineSplit d xs := by
            rw [hrec]; exact List.mem_cons_of_mem s h
          exact List.mem_cons_of_mem x (ih hs c hc)

theorem not_delim_mem_cppGetlineSplit {d : Char} :
    ∀ {l seg : List Char}, seg ∈ cppGetlineSplit d l → d ∉ seg := by
  intro l
  induction l with
  | nil => intro seg hseg; simp [cppGetlineSplit] at hseg
  | cons x xs ih =>
    intro seg hseg
    simp only [cppGetlineSplit] at hseg
    by_cases hx : x = d
    · rw [if_pos hx] at hseg
      rcases List.mem_cons.mp hseg with h | h
      · subst h; simp
      · exact ih h
    · rw [if_neg hx] at hseg
      rcases hrec : cppGetlineSplit d xs with _ | ⟨s, ss⟩
      · rw [hrec] at hseg
        simp at hseg
        subst hseg
        intro hmem
        simp at hmem
        exact hx hmem.symm
      · rw [hrec] at hseg
        rcases List.mem_cons.mp hseg with h | h
        · subst h
          intro hmem
          rcases List.mem_cons.mp hmem with h' | h'
          · exact hx h'.symm
          · have hs : s ∈ cppGetlineSplit d xs := by
              rw [hrec]; exact List.mem_cons_self s ss
            exact ih hs h'
        · have hs : seg ∈ cppGetlineSplit d xs := by
            rw [hrec]; exact List.mem_cons_of_mem s h
          exact ih hs

theorem cppGetlineSplit_no_delim {d : Char} :
    ∀ {l : List Char}, l ≠ [] → d ∉ l → cppGetlineSplit d l = [l] := by
  intro l
  induction l with
  | nil => intro h; exact absurd rfl h
  | cons x xs ih =>
    intro _ hnd
    have hx : ¬ x = d := fun h => hnd (by simp [h])
    simp only [cppGetlineSplit, if_neg hx]
    rcases hxs : xs with _ | ⟨y, ys⟩
    · rfl
    · have hxs' : cppGetlineSplit d xs = [xs] := by
        apply ih
        · rw [hxs]; simp
        · intro hmem; exact hnd (List.mem_cons_of_mem x hmem)
      rw [hxs] at hxs'
      rw [hxs']

theorem cppGetlineSplit_append {d : Char} :
    ∀ {a : List Char}, ∀ l : List Char, d ∉ a →
      cppGetlineSplit d (a ++ d :: l) = a :: cppGetlineSplit d l := by
  intro a
  induction a with
  | nil => intro l _; simp [cppGetlineSplit_cons_delim]
  | cons x a' ih =>
    intro l ha
    have hx : ¬ x = d := fun h => ha (by simp [h])
    have ha' : d ∉ a' := fun h => ha (List.mem_cons_of_mem x h)
    simp only [List.cons_append, cppGetlineSplit, if_neg hx, List.append_eq]
    rw [ih l ha']

/-! ## `collectParts` and `joinParts` lemmas (used for C10) -/

theorem collectParts_append_good :
    ∀ {segs : List (List Char)} (parts : List (List Char)),
      (∀ q ∈ segs, q ≠ [] ∧ q ≠ ['.'] ∧ q ≠ ['.', '.']) →
      collectParts parts segs = parts ++ segs := by
  intro segs
  induction segs with
  | nil => intro parts _; simp [collectParts]
  | cons seg rest ih =>
    intro parts hgood
    obtain ⟨h1, h2, h3⟩ := hgood seg (List.mem_cons_self seg rest)
    simp only [collectParts]
    rw [if_neg (not_or.mpr ⟨h1, h2⟩), if_neg h3]
    rw [ih (parts ++ [seg]) (fun q hq => hgood q (List.mem_cons_of_mem seg hq))]
    simp

theorem mem_collectParts :
    ∀ {segs parts : List (List Char)} {q : List Char},
      q ∈ collectParts parts segs → q ∈ parts ∨ q ∈ segs := by
  intro segs
  induction segs with
  | nil => intro parts q h; exact Or.inl h
  | cons seg rest ih =>
    intro parts q h
    simp only [collectParts] at h
    by_cases h1 : seg = [] ∨ seg = ['.']
    · rw [if_pos h1] at h
      rcases ih h with hp | hr
      · exact Or.inl hp
      · exact Or.inr (List.mem_cons_of_mem seg hr)
    · rw [if_neg h1] at h
      by_cases h2 : seg = ['.', '.']
      · rw [if_pos h2] at h
        rcases ih h with hp | hr
        · exact Or.inl ((List.dropLast_sublist _).subset hp)
        · exact Or.inr (List.mem_cons_of_mem seg hr)
      · rw [if_neg h2] at h
        rcases ih h with hp | hr
        · rcases List.mem_append.mp hp with hp' | hp'
          · exact Or.inl hp'
          · simp at hp'
            exact Or.inr (by rw [hp']; exact List.mem_cons_self seg rest)
        · exact Or.inr (List.mem_cons_of_mem seg hr)

theorem collectParts_good :
    ∀ {segs parts : List (List Char)},
      (∀ q ∈ parts, q ≠ [] ∧ q ≠ ['.'] ∧ q ≠ ['.', '.']) →
      ∀ q ∈ collectParts parts segs, q ≠ [] ∧ q ≠ ['.'] ∧ q ≠ ['.', '.'] := by
  intro segs
  induction segs with
  | nil => intro parts hp q hq; exact hp q hq
  | cons seg rest ih =>
    intro parts hp q hq
    simp only [collectParts] at hq
    by_cases h1 : seg = [] ∨ seg = ['.']
    · rw [if_pos h1] at hq
      exact ih hp q hq
    · rw [if_neg h1] at hq
      by_cases h2 : seg = ['.', '.']
      · rw [if_pos h2] at hq
        exact ih (fun q' hq' => hp q' ((List.dropLast_sublist _).subset hq')) q hq
      · rw [if_neg h2] at hq
        refine ih ?_ q hq
        intro q' hq'
        rcases List.mem_append.mp hq' with h | h
        · exact hp q' h
        · simp at h
          subst h
          push_neg at h1
          exact ⟨h1.1, h1.2, h2⟩

theorem joinRest_chars :
    ∀ {rest : List (List Char)} {c : Char},
      c ∈ joinRest rest → c = '/' ∨ ∃ q ∈ rest, c ∈ q := by
  intro rest
  induction rest with
  | nil => intro c h; simp [joinRest] at h
  | cons p ps ih =>
    intro c h
    simp only [joinRest, List.cons_append] at h
    rcases List.mem_cons.mp h with h | h
    · exact Or.inl h
    · rcases List.mem_append.mp h with h | h
      · exact Or.inr ⟨p, List.mem_cons_self p ps, h⟩
      · rcases ih h with h | ⟨q, hq, hc⟩
        · exact Or.inl h
        · exact Or.inr ⟨q, List.mem_cons_of_mem p hq, hc⟩

theorem joinParts_chars :
    ∀ {parts : List (List Char)} {c : Char},
      c ∈ joinParts parts → c = '/' ∨ ∃ q ∈ parts, c ∈ q := by
  intro parts c h
  cases parts with
  | nil => simp [joinParts] at h
  | cons p0 rest =>
    simp only [joinParts] at h
    rcases List.mem_append.mp h with h | h
    · by_cases hd : isDrivePart p0
      · rw [if_pos hd] at h
        exact Or.inr ⟨p0, List.mem_cons_self p0 rest, h⟩
      · rw [if_neg hd] at h
        rcases List.mem_cons.mp h with h | h
        · exact Or.inl h
        · exact Or.inr ⟨p0, List.mem_cons_self p0 rest, h⟩
    · rcases joinRest_chars h with h | ⟨q, hq, hc⟩
      · exact Or.inl h
      · exact Or.inr ⟨q, List.mem_cons_of_mem p0 hq, hc⟩

theorem split_join :
    ∀ {rest : List (List Char)} {p0 : List Char}, p0 ≠ [] → '/' ∉ p0 →
      (∀ q ∈ rest, q ≠ [] ∧ '/' ∉ q) →
      cppGetlineSplit '/' (p0 ++ joinRest rest) = p0 :: rest := by
  intro rest
  induction rest with
  | nil =>
    intro p0 h0 h0' _
    simp only [joinRest, List.append_nil]
    exact cppGetlineSplit_no_delim h0 h0'
  | cons q qs ih =>
    intro p0 h0 h0' hrest
    have hq := hrest q (List.mem_cons_self q qs)
    simp only [joinRest, List.cons_append]
    rw [cppGetlineSplit_append (q ++ joinRest qs) h0']
    rw [ih hq.1 hq.2 (fun q' hq' => hrest q' (List.mem_cons_of_mem q hq'))]

theorem joinParts_ne_nil {p0 : List Char} {rest : List (List Char)} (h0 : p0 ≠ []) :
    joinParts (p0 :: rest) ≠ [] := by
  simp only [joinParts]
  by_cases hd : isDrivePart p0
  · rw [if_pos hd]
    simp [h0]
  · rw [if_neg hd]
    simp

theorem split_joinParts {p0 : List Char} {rest : List (List Char)}
    (hparts : ∀ q ∈ p0 :: rest, q ≠ [] ∧ '/' ∉ q) :
    cppGetlineSplit '/' (joinParts (p0 :: rest)) =
      if isDrivePart p0 then p0 :: rest else [] :: p0 :: rest := by
  have h0 := hparts p0 (List.mem_cons_self p0 rest)
  have hrest : ∀ q ∈ rest, q ≠ [] ∧ '/' ∉ q :=
    fun q hq => hparts q (List.mem_cons_of_mem p0 hq)
  simp only [joinParts]
  by_cases hd : isDrivePart p0
  · rw [if_pos hd, if_pos hd]
    exact split_join h0.1 h0.2 hrest
  · rw [if_neg hd, if_neg hd]
    have : ('/' :: p0) ++ joinRest rest = '/' :: (p0 ++ joinRest rest) := by simp
    rw [this, cppGetlineSplit_cons_delim]
    rw [split_join h0.1 h0.2 hrest]

theorem replaceBackslash_no_backslash (l : List Char) :
    ∀ c ∈ replaceBackslash l, c ≠ '\\' := by
  intro c hc hceq
  subst hceq
  simp only [replaceBackslash, List.mem_map] at hc
  obtain ⟨a, _, ha⟩ := hc
  by_cases h : a = '\\'
  · rw [if_pos h] at ha
    exact absurd ha (by decide)
  · rw [if_neg h] at ha
    exact h ha

theorem replaceBackslash_id :
    ∀ {l : List Char}, (∀ c ∈ l, c ≠ '\\') → replaceBackslash l = l := by
  intro l
  induction l with
  | nil => intro _; rfl
  | cons c cs ih =>
    intro h
    have hc := h c (List.mem_cons_self c cs)
    have htail := ih (fun c' hc' => h c' (List.mem_cons_of_mem c hc'))
    simp only [replaceBackslash, List.map_cons, if_neg hc]
    simp only [replaceBackslash] at htail
    rw [htail]

/-! ## `normalize_path` structure lemmas -/

theorem normalizeParts_good (p : List Char) :
    ∀ q ∈ collectParts [] (cppGetlineSplit '/' (replaceBackslash p)),
      q ≠ [] ∧ q ≠ ['.'] ∧ q ≠ ['.', '.'] ∧ '/' ∉ q ∧ '\\' ∉ q := by
  intro q hq
  have hgood := @collectParts_good _ [] (by intro q' hq'; simp at hq') q hq
  have hmem : q ∈ cppGetlineSplit '/' (replaceBackslash p) := by
    rcases mem_collectParts hq with h | h
    · simp at h
    · exact h
  refine ⟨hgood.1, hgood.2.1, hgood.2.2, not_delim_mem_cppGetlineSplit hmem, ?_⟩
  intro hbs
  have hc := mem_cppGetlineSplit_subset hmem '\\' hbs
  exact replaceBackslash_no_backslash p '\\' hc rfl

theorem normalize_path_of_parts_nil {p : List Char}
    (hp : collectParts [] (cppGetlineSplit '/' (replaceBackslash p)) = []) :
    normalize_path p = ['/'] := by
  simp only [normalize_path]
  rw [hp]
  rfl

theorem normalize_path_of_parts_cons {p : List Char} {p0 : List Char}
    {rest : List (List Char)}
    (hp : collectParts [] (cppGetlineSplit '/' (replaceBackslash p)) = p0 :: rest)
    (h0 : p0 ≠ []) :
    normalize_path p = joinParts (p0 :: rest) := by
  simp only [normalize_path]
  rw [hp, if_neg (joinParts_ne_nil h0)]

theorem normalize_path_idem (p : List Char) :
    normalize_path (normalize_path p) = normalize_path p := by
  rcases hp : collectParts [] (cppGetlineSplit '/' (replaceBackslash p)) with _ | ⟨p0, rest⟩
  · rw [normalize_path_of_parts_nil hp]
    decide
  · have hgood := normalizeParts_good p
    rw [hp] at hgood
    have h0 := hgood p0 (List.mem_cons_self p0 rest)
    rw [normalize_path_of_parts_cons hp h0.1]
    have hnb : ∀ c ∈ joinParts (p0 :: rest), c ≠ '\\' := by
      intro c hc hceq
      subst hceq
      rcases joinParts_chars hc with h | ⟨q, hq, hcq⟩
      · exact absurd h (by decide)
      · exact (hgood q hq).2.2.2.2 hcq
    have hparts : ∀ q ∈ p0 :: rest, q ≠ [] ∧ '/' ∉ q :=
      fun q hq => ⟨(hgood q hq).1, (hgood q hq).2.2.2.1⟩
    have hgood' : ∀ q ∈ p0 :: rest, q ≠ [] ∧ q ≠ ['.'] ∧ q ≠ ['.', '.'] :=
      fun q hq => ⟨(hgood q hq).1, (hgood q hq).2.1, (hgood q hq).2.2.1⟩
    simp only [normalize_path]
    rw [replaceBackslash_id hnb, split_joinParts hparts]
    by_cases hd : isDrivePart p0
    · rw [if_pos hd]
      rw [collectParts_append_good [] hgood']
      simp only [List.nil_append]
      rw [if_neg (joinParts_ne_nil h0.1)]
    · rw [if_neg hd]
      have hskip : collectParts [] ([] :: p0 :: rest) = collectParts [] (p0 :: rest) := by
        simp [collectParts]
      rw [hskip, collectParts_append_good [] hgood']
      simp only [List.nil_append]
      rw [if_neg (joinParts_ne_nil h0.1)]

/-- Claim C10: for every input, `normalize_path` produces a path whose
segments contain no empty, `"."` or `".."` components (the only possibly
empty split piece is the leading root marker); a `".."` pops the previous
kept segment and is dropped when there is none; an input that resolves to
no segments yields `"/"`; and the function is idempotent. -/
theorem C10_normalize_path (p : List Char) :
    (∀ seg ∈ cppGetlineSplit '/' (normalize_path p), seg ≠ ['.'] ∧ seg ≠ ['.', '.']) ∧
    (∀ seg ∈ (cppGetlineSplit '/' (normalize_path p)).drop 1, seg ≠ []) ∧
    (∀ (parts : List (List Char)) (rest : List (List Char)),
      collectParts parts (['.', '.'] :: rest) = collectParts parts.dropLast rest) ∧
    (collectParts [] (cppGetlineSplit '/' (replaceBackslash p)) = [] →
      normalize_path p = ['/']) ∧
    normalize_path (normalize_path p) = normalize_path p := by
  refine ⟨?_, ?_, ?_, fun hp => normalize_path_of_parts_nil hp, normalize_path_idem p⟩
  case refine_3 =>
    intro parts rest
    simp [collectParts]
  · intro seg hseg
    rcases hp : collectParts [] (cppGetlineSplit '/' (replaceBackslash p)) with _ | ⟨p0, rest⟩
    · rw [normalize_path_of_parts_nil hp] at hseg
      have : seg = [] := by
        have hsp : cppGetlineSplit '/' ['/'] = [[]] := by decide
        rw [hsp] at hseg
        simpa using hseg
      subst this
      exact ⟨by decide, by decide⟩
    · have hgood := normalizeParts_good p
      rw [hp] at hgood
      have h0 := hgood p0 (List.mem_cons_self p0 rest)
      rw [normalize_path_of_parts_cons hp h0.1] at hseg
      have hparts : ∀ q ∈ p0 :: rest, q ≠ [] ∧ '/' ∉ q :=
        fun q hq => ⟨(hgood q hq).1, (hgood q hq).2.2.2.1⟩
      rw [split_joinParts hparts] at hseg
      by_cases hd : isDrivePart p0
      · rw [if_pos hd] at hseg
        exact ⟨(hgood seg hseg).2.1, (hgood seg hseg).2.2.1⟩
      · rw [if_neg hd] at hseg
        rcases List.mem_cons.mp hseg with h | h
        · subst h
          exact ⟨by decide, by decide⟩
        · exact ⟨(hgood seg h).2.1, (hgood seg h).2.2.1⟩
  · intro seg hseg
    rcases hp : collectParts [] (cppGetlineSplit '/' (replaceBackslash p)) with _ | ⟨p0, rest⟩
    · rw [normalize_path_of_parts_nil hp] at hseg
      have hsp : cppGetlineSplit '/' ['/'] = [[]] := by decide
      rw [hsp] at hseg
      simp at hseg
    · have hgood := normalizeParts_good p
      rw [hp] at hgood
      have h0 := hgood p0 (List.mem_cons_self p0 rest)
      rw [normalize_path_of_parts_cons hp h0.1] at hseg
      have hparts : ∀ q ∈ p0 :: rest, q ≠ [] ∧ '/' ∉ q :=
        fun q hq => ⟨(hgood q hq).1, (hgood q hq).2.2.2.1⟩
      rw [split_joinParts hparts] at hseg
      by_cases hd : isDrivePart p0
      · rw [if_pos hd] at hseg
        simp only [List.drop_one, List.tail_cons] at hseg
        exact (hgood seg (List.mem_cons_of_mem p0 hseg)).1
      · rw [if_neg hd] at hseg
        simp only [List.drop_one, List.tail_cons] at hseg
        exact (hgood seg hseg).1

/-- Witness for C10: `"a/.."` resolves to no segments and normalizes to
`"/"`. -/
theorem C10_normalize_path_witness :
    collectParts [] (cppGetlineSplit '/' (replaceBackslash ("a/..".data))) = [] ∧
    normalize_path ("a/..".data) = ['/'] :=
  ⟨by decide, (C10_normalize_path ("a/..".data)).2.2.2.1 (by decide)⟩

/-! ## Long-listing line parsing lemmas (C6, C7, C9) -/

theorem parseLineLoop_cons (d : DirEntry) (n : Nat) (seg : List Char)
    (rest : List (List Char)) :
    parseLineLoop d n (seg :: rest) =
      if seg = [] then parseLineLoop d n rest
      else if n = 0 then
        if seg.length ≠ 10 then d else parseLineLoop { d with mode_str_ := seg } 1 rest
      else if n = 2 then parseLineLoop { d with owner_ := seg } (n + 1) rest
      else if n = 3 then parseLineLoop { d with group_ := seg } (n + 1) rest
      else parseLineLoop d (n + 1) rest := rfl

theorem parseLineLoop_filter :
    ∀ (segs : List (List Char)) (d : DirEntry) (n : Nat),
      parseLineLoop d n segs = parseLineLoop d n (segs.filter (fun t => t ≠ [])) := by
  intro segs
  induction segs with
  | nil => intro d n; rfl
  | cons seg rest ih =>
    intro d n
    by_cases h : seg = []
    · rw [h, List.filter_cons_of_neg (by decide), parseLineLoop_cons, if_pos rfl]
      exact ih d n
    · rw [List.filter_cons_of_pos (by simpa using h), parseLineLoop_cons, parseLineLoop_cons,
        if_neg h, if_neg h]
      by_cases h0 : n = 0
      · rw [if_pos h0, if_pos h0]
        by_cases hlen : seg.length ≠ 10
        · rw [if_pos hlen, if_pos hlen]
        · rw [if_neg hlen, if_neg hlen]
          exact ih _ 1
      · rw [if_neg h0, if_neg h0]
        by_cases h2 : n = 2
        · rw [if_pos h2, if_pos h2]
          exact ih _ (n + 1)
        · rw [if_neg h2, if_neg h2]
          by_cases h3 : n = 3
          · rw [if_pos h3, if_pos h3]
            exact ih _ (n + 1)
          · rw [if_neg h3, if_neg h3]
            exact ih _ (n + 1)

theorem parseLineLoop_ge_four :
    ∀ (segs : List (List Char)) (d : DirEntry) (n : Nat), 4 ≤ n →
      parseLineLoop d n segs = d := by
  intro segs
  induction segs with
  | nil => intro d n _; rfl
  | cons seg rest ih =>
    intro d n hn
    rw [parseLineLoop_cons]
    by_cases h : seg = []
    · rw [if_pos h]
      exact ih d n hn
    · rw [if_neg h, if_neg (by omega : ¬ n = 0), if_neg (by omega : ¬ n = 2),
        if_neg (by omega : ¬ n = 3)]
      exact ih d (n + 1) (by omega)

theorem parseLineLoop_fields_untouched :
    ∀ (segs : List (List Char)) (d : DirEntry) (n : Nat),
      (parseLineLoop d n segs).name_ = d.name_ ∧
      (parseLineLoop d n segs).size_ = d.size_ ∧
      (parseLineLoop d n segs).modified_ = d.modified_ ∧
      (parseLineLoop d n segs).mode_ = d.mode_ ∧
      (parseLineLoop d n segs).isDir_ = d.isDir_ := by
  intro segs
  induction segs with
  | nil => intro d n; exact ⟨rfl, rfl, rfl, rfl, rfl⟩
  | cons seg rest ih =>
    intro d n
    rw [parseLineLoop_cons]
    by_cases h : seg = []
    · rw [if_pos h]
      exact ih d n
    · rw [if_neg h]
      by_cases h0 : n = 0
      · rw [if_pos h0]
        by_cases hlen : seg.length ≠ 10
        · rw [if_pos hlen]
          exact ⟨rfl, rfl, rfl, rfl, rfl⟩
        · rw [if_neg hlen]
          exact ih _ 1
      · rw [if_neg h0]
        by_cases h2 : n = 2
        · rw [if_pos h2]
          exact ih _ (n + 1)
        · rw [if_neg h2]
          by_cases h3 : n = 3
          · rw [if_pos h3]
            exact ih _ (n + 1)
          · rw [if_neg h3]
            exact ih _ (n + 1)

theorem parseLineLoop_one :
    ∀ (toks : List (List Char)) (d : DirEntry), (∀ t ∈ toks, t ≠ []) →
      parseLineLoop d 1 toks =
        { d with owner_ := toks.getD 1 d.owner_, group_ := toks.getD 2 d.group_ } := by
  intro toks d hne
  rcases toks with _ | ⟨t1, _ | ⟨t2, _ | ⟨t3, rest⟩⟩⟩
  · rfl
  · have h1 := hne t1 (by simp)
    rw [parseLineLoop_cons, if_neg h1, if_neg (by omega : ¬ (1:Nat) = 0),
      if_neg (by omega : ¬ (1:Nat) = 2), if_neg (by omega : ¬ (1:Nat) = 3)]
    rfl
  · have h1 := hne t1 (by simp)
    have h2 := hne t2 (by simp)
    rw [parseLineLoop_cons, if_neg h1, if_neg (by omega : ¬ (1:Nat) = 0),
      if_neg (by omega : ¬ (1:Nat) = 2), if_neg (by omega : ¬ (1:Nat) = 3)]
    rw [parseLineLoop_cons, if_neg h2, if_neg (by omega : ¬ (1+1:Nat) = 0),
      if_pos (by omega : (1+1:Nat) = 2)]
    rfl
  · have h1 := hne t1 (by simp)
    have h2 := hne t2 (by simp)
    have h3 := hne t3 (by simp)
    rw [parseLineLoop_cons, if_neg h1, if_neg (by omega : ¬ (1:Nat) = 0),
      if_neg (by omega : ¬ (1:Nat) = 2), if_neg (by omega : ¬ (1:Nat) = 3)]
    rw [parseLineLoop_cons, if_neg h2, if_neg (by omega : ¬ (1+1:Nat) = 0),
      if_pos (by omega : (1+1:Nat) = 2)]
    rw [parseLineLoop_cons, if_neg h3, if_neg (by omega : ¬ (1+1+1:Nat) = 0),
      if_neg (by omega : ¬ (1+1+1:Nat) = 2), if_pos (by omega : (1+1+1:Nat) = 3)]
    rw [parseLineLoop_ge_four rest _ _ (by omega)]
    rfl

theorem spaceTokens_nonempty {line : List Char} :
    ∀ t ∈ spaceTokens line, t ≠ [] := by
  intro t ht
  have := (List.mem_filter.mp ht).2
  simpa using this

/-- Claim C6 counterexample: on the tab-separated line
`"drwxr-xr-x\t1 root wheel"` the first whitespace-delimited token is the
10-character permission string, yet the code (which splits on the space
character only) leaves the permission string and the owner empty. -/
theorem C6_counterexample :
    (specWhitespaceTokens ("drwxr-xr-x\t1 root wheel".data)).headD [] = ("drwxr-xr-x".data) ∧
    ("drwxr-xr-x".data).length = 10 ∧
    (parseLine ("drwxr-xr-x\t1 root wheel".data) {}).mode_str_ = [] ∧
    (parseLine ("drwxr-xr-x\t1 root wheel".data) {}).owner_ = [] ∧
    ([] : List Char) ≠ ("drwxr-xr-x".data) := by decide

/-- Claim C6 (amended): for every long-listing line whose first non-empty
space-separated token has length exactly 10, the parser splits on the
space character (not on arbitrary whitespace), discards empty tokens,
and sets the permission string to that first token, the owner to the
token at position 2 and the group to the token at position 3 (each left
empty when missing); all other token positions are ignored. -/
theorem C6_amended (r : RawDirEntry) (t0 : List Char) (rest : List (List Char))
    (ht : spaceTokens r.line = t0 :: rest) (hlen : t0.length = 10) :
    (parseLine r.line (mkDirEntry r)).mode_str_ = t0 ∧
    (parseLine r.line (mkDirEntry r)).owner_ = rest.getD 1 [] ∧
    (parseLine r.line (mkDirEntry r)).group_ = rest.getD 2 [] := by
  have hne : ∀ t ∈ t0 :: rest, t ≠ [] := by
    rw [← ht]
    exact spaceTokens_nonempty
  have h0 : t0 ≠ [] := hne t0 (by simp)
  have hrest : ∀ t ∈ rest, t ≠ [] := fun t htm => hne t (List.mem_cons_of_mem t0 htm)
  have ht' : (cppGetlineSplit ' ' r.line).filter (fun t => t ≠ []) = t0 :: rest := ht
  unfold parseLine
  rw [parseLineLoop_filter, ht']
  rw [parseLineLoop_cons, if_neg h0, if_pos rfl, if_neg (by omega : ¬ t0.length ≠ 10)]
  rw [parseLineLoop_one rest _ hrest]
  exact ⟨rfl, rfl, rfl⟩

/-- Witness for the amended C6 on a conventional listing line. -/
theorem C6_amended_witness :
    (parseLine sampleRawEntry.line (mkDirEntry sampleRawEntry)).mode_str_ =
      ("-rw-r--r--".data) ∧
    (parseLine sampleRawEntry.line (mkDirEntry sampleRawEntry)).owner_ = ("root".data) ∧
    (parseLine sampleRawEntry.line (mkDirEntry sampleRawEntry)).group_ = ("wheel".data) :=
  C6_amended sampleRawEntry ("-rw-r--r--".data)
    [("1".data), ("root".data), ("wheel".data), ("3".data), ("Jan".data), ("1".data),
      ("f".data)]
    (by decide) (by decide)

theorem getDirEntries_cons (r : RawDirEntry) (rest : List RawDirEntry) :
    getDirEntries (r :: rest) =
      if r.name = ['.'] then getDirEntries rest
      else parseLine r.line (mkDirEntry r) :: getDirEntries rest := rfl

theorem getDirEntries_mem :
    ∀ {raws : List RawDirEntry} {r : RawDirEntry}, r ∈ raws → r.name ≠ ['.'] →
      parseLine r.line (mkDirEntry r) ∈ getDirEntries raws := by
  intro raws
  induction raws with
  | nil => intro r h; simp at h
  | cons r0 rest ih =>
    intro r hmem hname
    rw [getDirEntries_cons]
    rcases List.mem_cons.mp hmem with h | h
    · subst h
      rw [if_neg hname]
      exact List.mem_cons_self _ _
    · by_cases h0 : r0.name = ['.']
      · rw [if_pos h0]
        exact ih h hname
      · rw [if_neg h0]
        exact List.mem_cons_of_mem _ (ih h hname)

/-- Claim C7 counterexample: on the line `"abc\tdefghi 1 root wheel"` the
first whitespace-delimited token `"abc"` does not have length 10, yet the
code (which splits on the space character only) sees a 10-character first
token and sets a non-empty permission string, owner and group. -/
theorem C7_counterexample :
    (specWhitespaceTokens ("abc\tdefghi 1 root wheel".data)).headD [] = ("abc".data) ∧
    ("abc".data).length ≠ 10 ∧
    (parseLine ("abc\tdefghi 1 root wheel".data) {}).mode_str_ = ("abc\tdefghi".data) ∧
    (parseLine ("abc\tdefghi 1 root wheel".data) {}).owner_ = ("root".data) ∧
    (parseLine ("abc\tdefghi 1 root wheel".data) {}).group_ = ("wheel".data) ∧
    ("abc\tdefghi".data : List Char) ≠ [] := by decide

/-- Claim C7 (amended): a long-listing line whose first non-empty
space-separated token does not have length exactly 10 leaves the
permission string, owner and group empty; the entry is still appended to
the listing with its machine-supplied attributes, and the listing
operation itself does not fail. -/
theorem C7_malformed_line (raws : List RawDirEntry) (r : RawDirEntry) (t0 : List Char)
    (rest : List (List Char)) (ht : spaceTokens r.line = t0 :: rest)
    (hlen : t0.length ≠ 10) (hmem : r ∈ raws) (hname : r.name ≠ ['.']) :
    (parseLine r.line (mkDirEntry r)).mode_str_ = [] ∧
    (parseLine r.line (mkDirEntry r)).owner_ = [] ∧
    (parseLine r.line (mkDirEntry r)).group_ = [] ∧
    (parseLine r.line (mkDirEntry r)).name_ = r.name ∧
    (parseLine r.line (mkDirEntry r)).size_ = (if r.hasSize then r.filesize else 0) ∧
    (parseLine r.line (mkDirEntry r)).modified_ = (if r.hasMtime then r.mtime else 0) ∧
    parseLine r.line (mkDirEntry r) ∈ getDirEntries raws := by
  have hne : ∀ t ∈ t0 :: rest, t ≠ [] := by
    rw [← ht]
    exact spaceTokens_nonempty
  have h0 : t0 ≠ [] := hne t0 (by simp)
  have ht' : (cppGetlineSplit ' ' r.line).filter (fun t => t ≠ []) = t0 :: rest := ht
  have hid : parseLine r.line (mkDirEntry r) = mkDirEntry r := by
    unfold parseLine
    rw [parseLineLoop_filter, ht']
    rw [parseLineLoop_cons, if_neg h0, if_pos rfl, if_pos hlen]
  rw [hid]
  exact ⟨rfl, rfl, rfl, rfl, rfl, rfl, hid ▸ getDirEntries_mem hmem hname⟩

/-- Witness for C7 on the malformed line `"total 12"`. -/
theorem C7_malformed_line_witness :
    (parseLine sampleRawEntryBad.line (mkDirEntry sampleRawEntryBad)).mode_str_ = [] ∧
    (parseLine sampleRawEntryBad.line (mkDirEntry sampleRawEntryBad)).owner_ = [] ∧
    (parseLine sampleRawEntryBad.line (mkDirEntry sampleRawEntryBad)).group_ = [] ∧
    (parseLine sampleRawEntryBad.line (mkDirEntry sampleRawEntryBad)).name_ =
      sampleRawEntryBad.name ∧
    (parseLine sampleRawEntryBad.line (mkDirEntry sampleRawEntryBad)).size_ =
      (if sampleRawEntryBad.hasSize then sampleRawEntryBad.filesize else 0) ∧
    (parseLine sampleRawEntryBad.line (mkDirEntry sampleRawEntryBad)).modified_ =
      (if sampleRawEntryBad.hasMtime then sampleRawEntryBad.mtime else 0) ∧
    parseLine sampleRawEntryBad.line (mkDirEntry sampleRawEntryBad) ∈
      getDirEntries [sampleRawEntryBad] :=
  C7_malformed_line [sampleRawEntryBad] sampleRawEntryBad ("total".data) [("12".data)]
    (by decide) (by decide) (List.mem_cons_self _ _) (by decide)

/-- Claim C9: directory listing discards exactly the entries named `"."`,
keeps every other raw entry (including `".."` and the empty name) in the
server-determined order with no implicit sort, and the kept names are the
raw names. -/
theorem C9_getDir_filter (raws : List RawDirEntry) :
    getDirEntries raws =
      (raws.filter (fun r => r.name ≠ ['.'])).map
        (fun r => parseLine r.line (mkDirEntry r)) ∧
    (getDirEntries raws).map (fun e => e.name_) =
      (raws.map (fun r => r.name)).filter (fun n => n ≠ ['.']) := by
  constructor
  · induction raws with
    | nil => rfl
    | cons r rest ih =>
      rw [getDirEntries_cons]
      by_cases h : r.name = ['.']
      · rw [if_pos h, List.filter_cons_of_neg (by simpa using h), ih]
      · rw [if_neg h, List.filter_cons_of_pos (by simpa using h), List.map_cons, ih]
  · induction raws with
    | nil => rfl
    | cons r rest ih =>
      rw [getDirEntries_cons, List.map_cons]
      by_cases h : r.name = ['.']
      · rw [if_pos h, List.filter_cons_of_neg (by simpa using h), ih]
      · rw [if_neg h, List.filter_cons_of_pos (by simpa using h), List.map_cons, ih]
        have hn : (parseLine r.line (mkDirEntry r)).name_ = r.name :=
          (parseLineLoop_fields_untouched _ _ _).1
        rw [hn]

/-! ## C8: the opendir error mapping -/

/-- Claim C8: when opening a directory for listing fails, the failure is
`DirListFailedPermission` exactly when the SFTP subsystem reports a
permission-denied protocol error, `FileNotFound` exactly when it reports a
no-such-path condition (`NO_SUCH_PATH`, `NO_SUCH_FILE` or `NO_MEDIA`), and
`ConnectionError` with the session's diagnostic message in every other
case; the typed failures carry the requested path. -/
theorem C8_opendir_failure (errno : Int) (err : Nat) (path msg : List Char) :
    (getDirOpendirFailure errno err path msg = SftpFailure.dirListFailedPermission path ↔
      errno = LIBSSH2_ERROR_SFTP_PROTOCOL ∧ err = LIBSSH2_FX_PERMISSION_DENIED) ∧
    (getDirOpendirFailure errno err path msg = SftpFailure.fileNotFound path ↔
      errno = LIBSSH2_ERROR_SFTP_PROTOCOL ∧
        (err = LIBSSH2_FX_NO_SUCH_PATH ∨ err = LIBSSH2_FX_NO_SUCH_FILE ∨
          err = LIBSSH2_FX_NO_MEDIA)) ∧
    ((errno ≠ LIBSSH2_ERROR_SFTP_PROTOCOL ∨
        (err ≠ LIBSSH2_FX_PERMISSION_DENIED ∧ err ≠ LIBSSH2_FX_NO_SUCH_PATH ∧
          err ≠ LIBSSH2_FX_NO_SUCH_FILE ∧ err ≠ LIBSSH2_FX_NO_MEDIA)) →
      getDirOpendirFailure errno err path msg =
        SftpFailure.connectionError (("libssh2_sftp_opendir failed. ".data) ++ msg)) := by
  unfold getDirOpendirFailure
  refine ⟨?_, ?_, ?_⟩
  · constructor
    · intro h
      split_ifs at h with h1 h2 h3
      exact ⟨h1, h2⟩
    · intro ⟨h1, h2⟩
      rw [if_pos h1, if_pos h2]
  · constructor
    · intro h
      split_ifs at h with h1 h2 h3
      exact ⟨h1, h3⟩
    · intro ⟨h1, h3⟩
      have h2 : err ≠ LIBSSH2_FX_PERMISSION_DENIED := by
        unfold LIBSSH2_FX_PERMISSION_DENIED
        unfold LIBSSH2_FX_NO_SUCH_PATH LIBSSH2_FX_NO_SUCH_FILE LIBSSH2_FX_NO_MEDIA at h3
        omega
      rw [if_pos h1, if_neg h2, if_pos h3]
  · intro h
    rcases h with h1 | ⟨h2, h3, h4, h5⟩
    · rw [if_neg h1]
    · by_cases h1 : errno = LIBSSH2_ERROR_SFTP_PROTOCOL
      · rw [if_pos h1, if_neg h2, if_neg (by tauto)]
      · rw [if_neg h1]

/-- Witness for C8: a protocol error with code 3 maps to
`DirListFailedPermission` carrying the path. -/
theorem C8_opendir_failure_witness :
    getDirOpendirFailure (-31) 3 ("/root".data) [] =
      SftpFailure.dirListFailedPermission ("/root".data) :=
  (C8_opendir_failure (-31) 3 ("/root".data) []).1.mpr ⟨by decide, by decide⟩

/-! ## C2: the upload copy loop -/

/-- Claim C2 refutation (code bug): uploading the four bytes
`[10, 20, 30, 40]` against a server that accepts only 2 bytes on the first
write produces the remote content `[10, 20, 10, 20]` — the retry loop
passes the start of the buffer (not the first unwritten byte) and the
previous return value as the count — while an upload with no partial
writes copies the bytes faithfully. -/
theorem C2_upload_partial_write_bug :
    UploadFile 8 [2] [10, 20, 30, 40] = some [10, 20, 10, 20] ∧
    some [10, 20, 10, 20] ≠ some [10, 20, 30, 40] ∧
    UploadFile 8 [] [10, 20, 30, 40] = some [10, 20, 30, 40] := by decide

/-! ## C3: the worker loop catches every typed failure -/

/-- Claim C3: for every command and every typed failure raised while
dispatching it, the worker loop catches the failure and posts exactly the
matching failure response (carrying the offending remote path, or the
diagnostic message for `ConnectionError`), then keeps running; the
`catchFailure` conversion is 1:1 per failure kind, and the only command
whose step terminates the loop is `Shutdown`. -/
theorem C3_worker_loop
    (mkConn : List Char → List Char → Nat → Except SftpFailure SftpTransport)
    (conn : Option SftpTransport) (t : SftpTransport)
    (u h pw dir lp rp msg : List Char) (p : Nat) (f : SftpFailure) :
    (mkConn u h p = Except.error f →
      sftpThreadStep mkConn conn (SftpCmd.connect u h p) =
        WorkerStep.continued conn [catchFailure f]) ∧
    (mkConn u h p = Except.ok t → t.agentAuth = Except.error f →
      sftpThreadStep mkConn conn (SftpCmd.connect u h p) =
        WorkerStep.continued (some t) [catchFailure f]) ∧
    (t.passwordAuth pw = Except.error f →
      sftpThreadStep mkConn (some t) (SftpCmd.password pw) =
        WorkerStep.continued (some t) [catchFailure f]) ∧
    (t.getDir dir = Except.error f →
      sftpThreadStep mkConn (some t) (SftpCmd.getDir dir) =
        WorkerStep.continued (some t) [catchFailure f]) ∧
    (t.downloadFile rp lp = Except.error f →
      sftpThreadStep mkConn (some t) (SftpCmd.download lp rp) =
        WorkerStep.continued (some t) [catchFailure f]) ∧
    (t.uploadFile lp rp = Except.error f →
      sftpThreadStep mkConn (some t) (SftpCmd.upload lp rp) =
        WorkerStep.continued (some t) [catchFailure f]) ∧
    catchFailure (SftpFailure.downloadFailed rp) = SftpResponse.downloadFailed rp ∧
    catchFailure (SftpFailure.downloadFailedPermission rp) =
      SftpResponse.downloadFailedPermission rp ∧
    catchFailure (SftpFailure.uploadFailed rp) = SftpResponse.uploadFailed rp ∧
    catchFailure (SftpFailure.uploadFailedPermission rp) =
      SftpResponse.uploadFailedPermission rp ∧
    catchFailure (SftpFailure.uploadFailedSpace rp) = SftpResponse.uploadFailedSpace rp ∧
    catchFailure (SftpFailure.dirListFailedPermission rp) = SftpResponse.dirListFailed rp ∧
    catchFailure (SftpFailure.fileNotFound rp) = SftpResponse.fileNotFound rp ∧
    catchFailure (SftpFailure.connectionError msg) = SftpResponse.errorConnection msg ∧
    sftpThreadStep mkConn conn SftpCmd.shutdown = WorkerStep.terminated ∧
    (∀ cmd : SftpCmd, sftpThreadStep mkConn conn cmd = WorkerStep.terminated →
      cmd = SftpCmd.shutdown) := by
  refine ⟨?_, ?_, ?_, ?_, ?_, ?_, rfl, rfl, rfl, rfl, rfl, rfl, rfl, rfl, rfl, ?_⟩
  · intro hmk
    simp [sftpThreadStep, hmk]
  · intro hmk hauth
    simp [sftpThreadStep, hmk, hauth]
  · intro hpw
    simp [sftpThreadStep, hpw]
  · intro hgd
    simp [sftpThreadStep, hgd]
  · intro hdl
    simp [sftpThreadStep, hdl]
  · intro hul
    simp [sftpThreadStep, hul]
  · intro cmd hterm
    cases cmd with
    | connect u' h' p' =>
      exfalso
      rcases hmk : mkConn u' h' p' with f' | t'
      · simp [sftpThreadStep, hmk] at hterm
      · rcases hauth : t'.agentAuth with f' | b
        · simp [sftpThreadStep, hmk, hauth] at hterm
        · cases b <;> simp [sftpThreadStep, hmk, hauth] at hterm
    | password pw' =>
      exfalso
      cases conn with
      | none => simp [sftpThreadStep] at hterm
      | some t' =>
        rcases hpw : t'.passwordAuth pw' with f' | b
        · simp [sftpThreadStep, hpw] at hterm
        · cases b <;> simp [sftpThreadStep, hpw] at hterm
    | shutdown => rfl
    | getDir d' =>
      exfalso
      cases conn with
      | none => simp [sftpThreadStep] at hterm
      | some t' =>
        rcases hgd : t'.getDir d' with f' | es
        · simp [sftpThreadStep, hgd] at hterm
        · simp [sftpThreadStep, hgd] at hterm
    | download lp' rp' =>
      exfalso
      cases conn with
      | none => simp [sftpThreadStep] at hterm
      | some t' =>
        rcases hdl : t'.downloadFile rp' lp' with f' | un
        · simp [sftpThreadStep, hdl] at hterm
        · simp [sftpThreadStep, hdl] at hterm
    | upload lp' rp' =>
      exfalso
      cases conn with
      | none => simp [sftpThreadStep] at hterm
      | some t' =>
        rcases hul : t'.uploadFile lp' rp' with f' | un
        · simp [sftpThreadStep, hul] at hterm
        · simp [sftpThreadStep, hul] at hterm

/-- Witness for C3: a permission-denied listing failure is caught and
posted as the matching response. -/
theorem C3_worker_loop_witness :
    sftpThreadStep sampleMkConn (some sampleFailTransport) (SftpCmd.getDir ("/root".data)) =
      WorkerStep.continued (some sampleFailTransport)
        [SftpResponse.dirListFailed ("/root".data)] :=
  (C3_worker_loop sampleMkConn (some sampleFailTransport) sampleFailTransport
    [] [] [] ("/root".data) [] [] [] 0
    (SftpFailure.dirListFailedPermission ("/root".data))).2.2.2.1 rfl

/-! ## C4: the reconnect countdown -/

/-- Claim C4: on a connection-level failure the controller displays the
prettified error with the 5-second message, sets the countdown to 4 and
starts a 1000 ms timer; the next four ticks only update the status text
(counting 4, 3, 2, 1) and put nothing on the channel; the fifth tick stops
the timer and re-issues `Connect` with the frame's original username, host
and port.  The constants do not depend on the prior state, so every
subsequent connection failure restarts the identical fixed 5-second cycle
with no backoff growth and no attempt limit. -/
theorem C4_reconnect (s : FrameState) (e : List Char) :
    (onErrorConnection s e).status_text =
      prettifySentence e ++ (" Reconnecting in 5 seconds...".data) ∧
    (onErrorConnection s e).reconnect_timer_error_ = prettifySentence e ∧
    (onErrorConnection s e).reconnect_timer_countdown_ = 4 ∧
    (onErrorConnection s e).reconnect_timer_interval_ms = 1000 ∧
    (onErrorConnection s e).reconnect_timer_running = true ∧
    (onErrorConnection s e).username_ = s.username_ ∧
    (onErrorConnection s e).host_ = s.host_ ∧
    (onErrorConnection s e).port_ = s.port_ ∧
    (runTicks 4 (onErrorConnection s e)).2 = [] ∧
    (runTicks 1 (onErrorConnection s e)).1.status_text =
      prettifySentence e ++ (" Reconnecting in 4 seconds...".data) ∧
    (runTicks 2 (onErrorConnection s e)).1.status_text =
      prettifySentence e ++ (" Reconnecting in 3 seconds...".data) ∧
    (runTicks 3 (onErrorConnection s e)).1.status_text =
      prettifySentence e ++ (" Reconnecting in 2 seconds...".data) ∧
    (runTicks 4 (onErrorConnection s e)).1.status_text =
      prettifySentence e ++ (" Reconnecting in 1 seconds...".data) ∧
    (runTicks 5 (onErrorConnection s e)).2 =
      [SftpCmd.connect s.username_ s.host_ s.port_] ∧
    (runTicks 5 (onErrorConnection s e)).1.reconnect_timer_running = false ∧
    (runTicks 5 (onErrorConnection s e)).1.status_text =
      prettifySentence e ++ (" Reconnecting...".data) := by
  refine ⟨rfl, rfl, rfl, rfl, rfl, rfl, rfl, rfl, ?_, ?_, ?_, ?_, ?_, ?_, ?_, ?_⟩ <;>
    (simp [runTicks, onReconnectTimer, onErrorConnection, intToStr]) <;> rfl

/-! ## C5: the file-watch tick -/

theorem watchTickFile_fst (mtime : List Char → Nat) (f : OpenedFile) :
    (watchTickFile mtime f).1 =
      if f.upload_requested = false ∧ mtime f.local_path > f.modified
      then { f with upload_requested := true } else f := by
  unfold watchTickFile
  split_ifs <;> rfl

theorem watchTickFile_snd (mtime : List Char → Nat) (f : OpenedFile) :
    (watchTickFile mtime f).2 =
      if f.upload_requested = false ∧ mtime f.local_path > f.modified
      then some (SftpCmd.upload f.local_path f.remote_path) else none := by
  unfold watchTickFile
  split_ifs <;> rfl

theorem watchTickFile_paths (mtime : List Char → Nat) (f : OpenedFile) :
    (watchTickFile mtime f).1.local_path = f.local_path ∧
    (watchTickFile mtime f).1.remote_path = f.remote_path := by
  rw [watchTickFile_fst]
  split_ifs <;> exact ⟨rfl, rfl⟩

/-- Claim C5: on a watch tick an `Upload` command is issued for a file if
and only if its on-disk modification time is strictly newer than the
tracked one and its upload-requested flag is false; issuing the command
sets the flag, so a second tick (at any later on-disk state) issues no
duplicate `Upload` for that file while the first is in flight. -/
theorem C5_watch_tick (mtime mtime' : List Char → Nat) (files : List OpenedFile)
    (f : OpenedFile)
    (hkeys : files.Pairwise (fun a b => a.remote_path ≠ b.remote_path)) :
    (∀ lp rp, SftpCmd.upload lp rp ∈ (onFileWatcherTimer mtime files).2 ↔
      ∃ g ∈ files, g.local_path = lp ∧ g.remote_path = rp ∧
        g.upload_requested = false ∧ mtime g.local_path > g.modified) ∧
    (f ∈ files → f.upload_requested = false → mtime f.local_path > f.modified →
      { f with upload_requested := true } ∈ (onFileWatcherTimer mtime files).1) ∧
    (f ∈ files → f.upload_requested = false → mtime f.local_path > f.modified →
      ∀ lp, SftpCmd.upload lp f.remote_path ∉
        (onFileWatcherTimer mtime' ((onFileWatcherTimer mtime files).1)).2) := by
  refine ⟨?_, ?_, ?_⟩
  · intro lp rp
    constructor
    · intro hmem
      rcases List.mem_filterMap.mp hmem with ⟨g, hg, hcmd⟩
      rw [watchTickFile_snd] at hcmd
      by_cases hc : g.upload_requested = false ∧ mtime g.local_path > g.modified
      · rw [if_pos hc] at hcmd
        simp only [Option.some.injEq, SftpCmd.upload.injEq] at hcmd
        exact ⟨g, hg, hcmd.1, hcmd.2, hc.1, hc.2⟩
      · rw [if_neg hc] at hcmd
        exact absurd hcmd (by simp)
    · rintro ⟨g, hg, hlp, hrp, hflag, hm⟩
      apply List.mem_filterMap.mpr
      exact ⟨g, hg, by rw [watchTickFile_snd, if_pos ⟨hflag, hm⟩, hlp, hrp]⟩
  · intro hf hflag hm
    apply List.mem_map.mpr
    exact ⟨f, hf, by rw [watchTickFile_fst, if_pos ⟨hflag, hm⟩]⟩
  · intro hf hflag hm lp hmem
    rcases List.mem_filterMap.mp hmem with ⟨g', hg', hcmd⟩
    rw [watchTickFile_snd] at hcmd
    by_cases hc : g'.upload_requested = false ∧ mtime' g'.local_path > g'.modified
    · rw [if_pos hc] at hcmd
      simp only [Option.some.injEq, SftpCmd.upload.injEq] at hcmd
      rcases List.mem_map.mp hg' with ⟨g, hg, hgeq⟩
      by_cases hgf : g = f
      · subst hgf
        rw [watchTickFile_fst, if_pos ⟨hflag, hm⟩] at hgeq
        rw [← hgeq] at hc
        simp at hc
      · have hgp : g'.remote_path = g.remote_path := by
          rw [← hgeq]
          exact (watchTickFile_paths mtime g).2
        have hsym : Symmetric (fun a b : OpenedFile => a.remote_path ≠ b.remote_path) :=
          fun a b hab hba => hab hba.symm
        have hne : g.remote_path ≠ f.remote_path :=
          List.Pairwise.forall hsym hkeys hg hf hgf
        exact hne (by rw [← hgp, hcmd.2])
    · rw [if_neg hc] at hcmd
      exact absurd hcmd (by simp)

/-- Witness for C5: a modified opened file triggers one upload and the
flag is set. -/
theorem C5_watch_tick_witness :
    { sampleOpenedFile with upload_requested := true } ∈
      (onFileWatcherTimer (fun _ => 5) [sampleOpenedFile]).1 :=
  (C5_watch_tick (fun _ => 5) (fun _ => 5) [sampleOpenedFile] sampleOpenedFile
    (List.pairwise_singleton _ _)).2.1 (List.mem_cons_self _ _) rfl (by decide)

/-! ## C1: the sort comparator — order apparatus -/

theorem LexNat_irrefl {α : Type} (f : α → Nat) (r : α → α → Prop)
    (hr : ∀ x, ¬ r x x) (a : α) : ¬ LexNat f r a a := by
  intro h
  rcases h with h | ⟨_, h⟩
  · omega
  · exact hr a h

theorem LexNat_trans {α : Type} {f : α → Nat} {r : α → α → Prop}
    (hr : ∀ x y z, r x y → r y z → r x z) {a b c : α}
    (h1 : LexNat f r a b) (h2 : LexNat f r b c) : LexNat f r a c := by
  rcases h1 with h1 | ⟨h1, h1'⟩ <;> rcases h2 with h2 | ⟨h2, h2'⟩
  · exact Or.inl (by omega)
  · exact Or.inl (by omega)
  · exact Or.inl (by omega)
  · exact Or.inr ⟨by omega, hr a b c h1' h2'⟩

theorem LexNat_comparison {α : Type} {f : α → Nat} {r : α → α → Prop}
    (hr : ∀ x y z, r x z → r x y ∨ r y z) {a b c : α}
    (h : LexNat f r a c) : LexNat f r a b ∨ LexNat f r b c := by
  rcases h with h | ⟨h, h'⟩
  · by_cases hb : f a < f b
    · exact Or.inl (Or.inl hb)
    · exact Or.inr (Or.inl (by omega))
  · by_cases hb : f a < f b
    · exact Or.inl (Or.inl hb)
    · by_cases hb' : f b < f c
      · exact Or.inr (Or.inl hb')
      · have hab : f a = f b := by omega
        rcases hr a b c h' with hx | hx
        · exact Or.inl (Or.inr ⟨hab, hx⟩)
        · exact Or.inr (Or.inr ⟨by omega, hx⟩)

theorem strLtDir_irrefl (dsc : Bool) (x : List Char) : ¬ strLtDir dsc x x := by
  cases dsc <;> simp [strLtDir, strLtb_irrefl]

theorem strLtDir_trans {dsc : Bool} {x y z : List Char}
    (h1 : strLtDir dsc x y) (h2 : strLtDir dsc y z) : strLtDir dsc x z := by
  cases dsc <;> simp [strLtDir] at h1 h2 ⊢
  · exact strLtb_trans h2 h1
  · exact strLtb_trans h1 h2

theorem strLtDir_comparison {dsc : Bool} {x y z : List Char}
    (h : strLtDir dsc x z) : strLtDir dsc x y ∨ strLtDir dsc y z := by
  cases dsc <;> simp [strLtDir] at h ⊢
  · rcases strLtb_comparison h with h' | h'
    · exact Or.inr h'
    · exact Or.inl h'
  · exact strLtb_comparison h

theorem colLt_irrefl (col : Nat) (dsc : Bool) (a : DirEntry) : ¬ colLt col dsc a a := by
  unfold colLt
  split_ifs <;>
    first
      | omega
      | exact strLtDir_irrefl dsc _
      | exact LexNat_irrefl _ _ (fun x => strLtDir_irrefl dsc x.name_) a

theorem colLt_trans {col : Nat} {dsc : Bool} {a b c : DirEntry}
    (h1 : colLt col dsc a b) (h2 : colLt col dsc b c) : colLt col dsc a c := by
  unfold colLt at h1 h2 ⊢
  split_ifs at h1 h2 ⊢ <;>
    first
      | omega
      | exact strLtDir_trans h1 h2
      | exact @LexNat_trans DirEntry (fun e => rank0 dsc e.name_)
          (fun x y => strLtDir dsc x.name_ y.name_)
          (fun x y z hxy hyz => strLtDir_trans hxy hyz) a b c h1 h2

theorem colLt_comparison {col : Nat} {dsc : Bool} {a b c : DirEntry}
    (h : colLt col dsc a c) : colLt col dsc a b ∨ colLt col dsc b c := by
  unfold colLt at h ⊢
  split_ifs at h ⊢ <;>
    first
      | omega
      | exact strLtDir_comparison h
      | exact @LexNat_comparison DirEntry (fun e => rank0 dsc e.name_)
          (fun x y => strLtDir dsc x.name_ y.name_)
          (fun x y z hxz => strLtDir_comparison hxz) a b c h

theorem cmpNameCol_iff (dsc : Bool) (na nb : List Char) :
    cmpNameCol dsc na nb = true ↔
      (rank0 dsc na < rank0 dsc nb ∨ (rank0 dsc na = rank0 dsc nb ∧ strLtDir dsc na nb)) := by
  rcases na with _ | ⟨a0, as⟩ <;> rcases nb with _ | ⟨b0, bs⟩
  · cases dsc <;> simp [cmpNameCol, rank0, strLtDir, strLtb]
  · by_cases hb : b0 = '.' <;> cases dsc <;>
      simp [cmpNameCol, rank0, strLtDir, strLtb_nil_cons, strLtb_nil_right, hb]
  · by_cases ha : a0 = '.' <;> cases dsc <;>
      simp [cmpNameCol, rank0, strLtDir, strLtb_nil_cons, strLtb_nil_right, ha]
  · by_cases ha : a0 = '.' <;> by_cases hb : b0 = '.' <;> cases dsc <;>
      simp [cmpNameCol, rank0, strLtDir, ha, hb]

theorem dirEntryCmp_iff {col : Nat} {dsc : Bool} {a b : DirEntry}
    (ha : a.name_ ≠ ['.', '.']) (hb : b.name_ ≠ ['.', '.']) :
    dirEntryCmp col dsc a b = true ↔ entryKeyLt col dsc a b := by
  unfold dirEntryCmp entryKeyLt LexNat dirRank colLt
  rw [if_neg ha, if_neg hb]
  cases hda : a.isDir_ <;> cases hdb : b.isDir_ <;> simp only [hda, hdb] <;> simp <;>
    split_ifs <;>
      first
        | rfl
        | (simpa [LexNat, strLtDir] using cmpNameCol_iff dsc a.name_ b.name_)
        | simp_all [strLtDir]

theorem bool_eq_false {b : Bool} (h : ¬ b = true) : b = false := by
  cases b
  · rfl
  · exact absurd rfl h

theorem entryKeyLt_irrefl (col : Nat) (dsc : Bool) (a : DirEntry) :
    ¬ entryKeyLt col dsc a a := by
  unfold entryKeyLt
  exact LexNat_irrefl dirRank (colLt col dsc) (fun x => colLt_irrefl col dsc x) a

theorem entryKeyLt_trans {col : Nat} {dsc : Bool} {a b c : DirEntry}
    (h1 : entryKeyLt col dsc a b) (h2 : entryKeyLt col dsc b c) :
    entryKeyLt col dsc a c := by
  unfold entryKeyLt at h1 h2 ⊢
  exact @LexNat_trans DirEntry dirRank (colLt col dsc)
    (fun x y z hxy hyz => colLt_trans hxy hyz) a b c h1 h2

theorem entryKeyLt_comparison {col : Nat} {dsc : Bool} {a b c : DirEntry}
    (h : entryKeyLt col dsc a c) : entryKeyLt col dsc a b ∨ entryKeyLt col dsc b c := by
  unfold entryKeyLt at h ⊢
  exact @LexNat_comparison DirEntry dirRank (colLt col dsc)
    (fun x y z hxz => colLt_comparison hxz) a b c h

theorem dirEntryCmp_dotdot_left {col : Nat} {dsc : Bool} {a b : DirEntry}
    (ha : a.name_ = ['.', '.']) : dirEntryCmp col dsc a b = true := by
  unfold dirEntryCmp
  rw [if_pos ha]

theorem dirEntryCmp_dotdot_right {col : Nat} {dsc : Bool} {a b : DirEntry}
    (ha : a.name_ ≠ ['.', '.']) (hb : b.name_ = ['.', '.']) :
    dirEntryCmp col dsc a b = false := by
  unfold dirEntryCmp
  rw [if_neg ha, if_pos hb]

theorem dirEntryCmp_irrefl {col : Nat} {dsc : Bool} {a : DirEntry}
    (ha : a.name_ ≠ ['.', '.']) : dirEntryCmp col dsc a a = false := by
  apply bool_eq_false
  intro h
  exact absurd ((dirEntryCmp_iff ha ha).mp h) (entryKeyLt_irrefl col dsc a)

theorem dirEntryCmp_trans {col : Nat} {dsc : Bool} {a b c : DirEntry}
    (ha : a.name_ ≠ ['.', '.']) (hb : b.name_ ≠ ['.', '.']) (hc : c.name_ ≠ ['.', '.'])
    (h1 : dirEntryCmp col dsc a b = true) (h2 : dirEntryCmp col dsc b c = true) :
    dirEntryCmp col dsc a c = true :=
  (dirEntryCmp_iff ha hc).mpr
    (entryKeyLt_trans ((dirEntryCmp_iff ha hb).mp h1) ((dirEntryCmp_iff hb hc).mp h2))

theorem dirEntryCmp_asymm_or_dotdot {col : Nat} {dsc : Bool} {a b : DirEntry}
    (hab : dirEntryCmp col dsc a b = true) (hba : dirEntryCmp col dsc b a = true) :
    a.name_ = ['.', '.'] ∧ b.name_ = ['.', '.'] := by
  by_cases ha : a.name_ = ['.', '.']
  · by_cases hb : b.name_ = ['.', '.']
    · exact ⟨ha, hb⟩
    · rw [dirEntryCmp_dotdot_right hb ha] at hba
      exact absurd hba (by simp)
  · by_cases hb : b.name_ = ['.', '.']
    · rw [dirEntryCmp_dotdot_right ha hb] at hab
      exact absurd hab (by simp)
    · have h1 := (dirEntryCmp_iff ha hb).mp hab
      have h2 := (dirEntryCmp_iff hb ha).mp hba
      exact absurd (entryKeyLt_trans h1 h2) (entryKeyLt_irrefl col dsc a)

theorem dirEntryCmp_asymm {col : Nat} {dsc : Bool} {a b : DirEntry}
    (ha : a.name_ ≠ ['.', '.']) (hab : dirEntryCmp col dsc a b = true) :
    dirEntryCmp col dsc b a = false := by
  apply bool_eq_false
  intro hba
  exact ha (dirEntryCmp_asymm_or_dotdot hab hba).1

theorem dirEntryCmp_negtrans {col : Nat} {dsc : Bool} {a b c : DirEntry}
    (h1 : dirEntryCmp col dsc b a = false) (h2 : dirEntryCmp col dsc c b = false) :
    dirEntryCmp col dsc c a = false := by
  by_cases hc : c.name_ = ['.', '.']
  · rw [dirEntryCmp_dotdot_left hc] at h2
    exact absurd h2 (by simp)
  · by_cases hb : b.name_ = ['.', '.']
    · rw [dirEntryCmp_dotdot_left hb] at h1
      exact absurd h1 (by simp)
    · by_cases ha : a.name_ = ['.', '.']
      · exact dirEntryCmp_dotdot_right hc ha
      · apply bool_eq_false
        intro hca
        have hk := (dirEntryCmp_iff hc ha).mp hca
        rcases entryKeyLt_comparison (b := b) hk with hx | hx
        · have := (dirEntryCmp_iff hc hb).mpr hx
          rw [h2] at this
          exact Bool.false_ne_true this
        · have := (dirEntryCmp_iff hb ha).mpr hx
          rw [h1] at this
          exact Bool.false_ne_true this

/-! ## Sorting lemmas for C1 -/

theorem insertCmp_perm (cmp : DirEntry → DirEntry → Bool) (x : DirEntry) :
    ∀ l : List DirEntry, (insertCmp cmp x l).Perm (x :: l) := by
  intro l
  induction l with
  | nil => exact List.Perm.refl _
  | cons y ys ih =>
    unfold insertCmp
    by_cases h : cmp y x = true
    · rw [if_pos h]
      exact (ih.cons y).trans (List.Perm.swap x y ys)
    · rw [if_neg h]

theorem sortCmp_perm (cmp : DirEntry → DirEntry → Bool) :
    ∀ l : List DirEntry, (sortCmp cmp l).Perm l := by
  intro l
  induction l with
  | nil => exact List.Perm.refl _
  | cons x xs ih =>
    unfold sortCmp
    exact (insertCmp_perm cmp x (sortCmp cmp xs)).trans (ih.cons x)

theorem insertCmp_pairwise {col : Nat} {dsc : Bool} {x : DirEntry} :
    ∀ {l : List DirEntry},
      (x :: l).countP (fun e => decide (e.name_ = ['.', '.'])) ≤ 1 →
      l.Pairwise (fun u v => dirEntryCmp col dsc v u = false) →
      (insertCmp (dirEntryCmp col dsc) x l).Pairwise
        (fun u v => dirEntryCmp col dsc v u = false) := by
  intro l
  induction l with
  | nil => intro _ _; exact List.pairwise_singleton _ _
  | cons y ys ih =>
    intro hcount hl
    rcases List.pairwise_cons.mp hl with ⟨hy, hys⟩
    unfold insertCmp
    by_cases hcy : dirEntryCmp col dsc y x = true
    · rw [if_pos hcy]
      apply List.pairwise_cons.mpr
      constructor
      · intro z hz
        rcases List.mem_cons.mp ((insertCmp_perm _ x ys).mem_iff.mp hz) with hzx | hzys
        · rw [hzx]
          apply bool_eq_false
          intro hxy
          obtain ⟨hyd, hxd⟩ := dirEntryCmp_asymm_or_dotdot hcy hxy
          have h2 : 2 ≤ (x :: y :: ys).countP (fun e => decide (e.name_ = ['.', '.'])) := by
            simp [List.countP_cons, hxd, hyd]
          omega
        · exact hy z hzys
      · apply ih
        · simp only [List.countP_cons] at hcount ⊢
          omega
        · exact hys
    · rw [if_neg hcy]
      apply List.pairwise_cons.mpr
      constructor
      · intro z hz
        rcases List.mem_cons.mp hz with hzy | hzys
        · subst hzy
          exact bool_eq_false hcy
        · exact dirEntryCmp_negtrans (bool_eq_false hcy) (hy z hzys)
      · exact hl

theorem sortCmp_pairwise {col : Nat} {dsc : Bool} :
    ∀ {l : List DirEntry},
      l.countP (fun e => decide (e.name_ = ['.', '.'])) ≤ 1 →
      (sortCmp (dirEntryCmp col dsc) l).Pairwise
        (fun u v => dirEntryCmp col dsc v u = false) := by
  intro l
  induction l with
  | nil => intro _; exact List.Pairwise.nil
  | cons x xs ih =>
    intro hcount
    unfold sortCmp
    apply insertCmp_pairwise
    · have hceq := (sortCmp_perm (dirEntryCmp col dsc) xs).countP_eq
        (fun e => decide (e.name_ = ['.', '.']))
      simp only [List.countP_cons] at hcount ⊢
      omega
    · apply ih
      simp only [List.countP_cons] at hcount
      omega

theorem sortCmp_of_pairwise {cmp : DirEntry → DirEntry → Bool} :
    ∀ {l : List DirEntry}, l.Pairwise (fun u v => cmp v u = false) →
      sortCmp cmp l = l := by
  intro l
  induction l with
  | nil => intro _; rfl
  | cons x xs ih =>
    intro h
    rcases List.pairwise_cons.mp h with ⟨hx, hxs⟩
    unfold sortCmp
    rw [ih hxs]
    cases xs with
    | nil => rfl
    | cons y ys =>
      unfold insertCmp
      rw [if_neg (by simp [hx y (List.mem_cons_self y ys)])]

theorem SortAndPopulateDir_idem {col : Nat} {dsc : Bool} {l : List DirEntry}
    (hcount : l.countP (fun e => decide (e.name_ = ['.', '.'])) ≤ 1) :
    SortAndPopulateDir col dsc (SortAndPopulateDir col dsc l) =
      SortAndPopulateDir col dsc l := by
  unfold SortAndPopulateDir
  exact sortCmp_of_pairwise (sortCmp_pairwise hcount)

/-- Claim C1 counterexample: the comparator of `SortAndPopulateDir` is not
a strict total order.  It is not irreflexive — an entry named `".."`
compares `true` against itself — and not total — two distinct entries with
equal sort keys are incomparable in both directions; moreover sorting a
sequence holding two `".."` entries a second time changes it again. -/
theorem C1_counterexample :
    dirEntryCmp 0 false entDotDot entDotDot = true ∧
    ({ name_ := ['a'], size_ := 1 } : DirEntry) ≠ { name_ := ['a'], size_ := 2 } ∧
    dirEntryCmp 0 false { name_ := ['a'], size_ := 1 } { name_ := ['a'], size_ := 2 } =
      false ∧
    dirEntryCmp 0 false { name_ := ['a'], size_ := 2 } { name_ := ['a'], size_ := 1 } =
      false ∧
    SortAndPopulateDir 0 false
        (SortAndPopulateDir 0 false [entDotDot, { entDotDot with size_ := 2 }]) ≠
      SortAndPopulateDir 0 false [entDotDot, { entDotDot with size_ := 2 }] := by decide

/-- Claim C1 (amended): away from entries named `".."` the comparator used
by `SortAndPopulateDir` is, for every sort column and either direction, a
strict weak order — irreflexive, asymmetric and transitive (entries with
equal keys are mutually incomparable, so the order is weak rather than
total) — consistent with the precedence "entry named '..' first, then
directories before files" (a `".."` entry compares before every entry);
and re-applying the same sort to the already-sorted sequence leaves it
unchanged for every sequence containing at most one `".."` entry. -/
theorem C1_amended (col : Nat) (dsc : Bool) (a b c x : DirEntry) (l : List DirEntry)
    (ha : a.name_ ≠ ['.', '.']) (hb : b.name_ ≠ ['.', '.']) (hc : c.name_ ≠ ['.', '.'])
    (hx : x.name_ = ['.', '.'])
    (hl : l.countP (fun e => decide (e.name_ = ['.', '.'])) ≤ 1) :
    dirEntryCmp col dsc a a = false ∧
    (dirEntryCmp col dsc a b = true → dirEntryCmp col dsc b a = false) ∧
    (dirEntryCmp col dsc a b = true → dirEntryCmp col dsc b c = true →
      dirEntryCmp col dsc a c = true) ∧
    dirEntryCmp col dsc x a = true ∧
    (a.isDir_ = true → b.isDir_ = false → dirEntryCmp col dsc a b = true) ∧
    SortAndPopulateDir col dsc (SortAndPopulateDir col dsc l) =
      SortAndPopulateDir col dsc l := by
  refine ⟨dirEntryCmp_irrefl ha, fun h => dirEntryCmp_asymm ha h,
    fun h1 h2 => dirEntryCmp_trans ha hb hc h1 h2, dirEntryCmp_dotdot_left hx, ?_,
    SortAndPopulateDir_idem hl⟩
  intro hda hdb
  unfold dirEntryCmp
  rw [if_neg ha, if_neg hb]
  simp [hda, hdb]

/-- Witness for the amended C1 at concrete entries and a concrete
listing. -/
theorem C1_amended_witness :
    dirEntryCmp 0 false entA entA = false ∧
    (dirEntryCmp 0 false entA entB = true → dirEntryCmp 0 false entB entA = false) ∧
    (dirEntryCmp 0 false entA entB = true → dirEntryCmp 0 false entB entC = true →
      dirEntryCmp 0 false entA entC = true) ∧
    dirEntryCmp 0 false entDotDot entA = true ∧
    (entA.isDir_ = true → entB.isDir_ = false → dirEntryCmp 0 false entA entB = true) ∧
    SortAndPopulateDir 0 false (SortAndPopulateDir 0 false [entDotDot, entA, entB]) =
      SortAndPopulateDir 0 false [entDotDot, entA, entB] :=
  C1_amended 0 false entA entB entC entDotDot [entDotDot, entA, entB]
    (by decide) (by decide) (by decide) (by decide) (by decide)
